import Mathlib

set_option maxRecDepth 16384

/-!
# Verification of the duster scan/clean engine

Shallow embedding of the core of the `duster` disk-cleanup tool
(`src/cleaner.rs`, `src/analyzer.rs`, `src/scan_cache.rs`,
`src/scanner/*.rs`, `src/config.rs`, `src/cli.rs`) together with proofs of
the specification's claims about it.

Modelling conventions:
* An absolute filesystem path is a list of components (`List String`);
  `Path.starts_with` in Rust is component-wise list prefix, `parent` drops
  the last component, `file_name` is the last component.
* Timestamps are seconds since the epoch (`Nat`).
* The filesystem visible to the deletion engine is the list of existing
  paths; `fs::remove_file` / `fs::remove_dir_all` succeed exactly when the
  path exists.
* Directory walks are embedded from the point where the walk yields
  entries: a scanner is a function of the entry list the walk produced,
  applying exactly the per-entry filters of the source loop.
* The blake3 content hash is modelled by the file content itself
  (collision-freedom of the hash is outside the scope of this
  development); a file whose hash computation fails in the source is an
  entry with `hashOk = false`.
-/

namespace Duster

/-- A filesystem path, as its list of components below the root. -/
abbrev FsPath := List String

/-- Render a path the way `Path::display` / `to_string_lossy` does. -/
def pathToString (p : FsPath) : String :=
  "/" ++ String.intercalate "/" p

/-- Embeds `Path::file_name`: the last component, if any. -/
def fileNameOf (p : FsPath) : Option String := p.getLast?

/-- Categories of cleanable files (`scanner/mod.rs`, enum `Category`). -/
inductive Category where
  | Cache
  | Trash
  | Temp
  | Downloads
  | BuildArtifact
  | LargeFile
  | Duplicate
  | OldFile
deriving DecidableEq, Repr

/-- One discovered deletion candidate (`scanner/mod.rs`, `CleanableFile`). -/
structure CleanableFile where
  path : FsPath
  size : Nat
  category : Category
  last_accessed : Nat
  reason : String
  is_directory : Bool
deriving DecidableEq, Repr

/-- Aggregate result of one scan (`scanner/mod.rs`, `ScanResult`). -/
structure ScanResult where
  files : List CleanableFile
  errors : List String
deriving DecidableEq, Repr

/-- Result of a cleanup run (`cleaner.rs`, `CleanupResult`). -/
structure CleanupResult where
  deleted_count : Nat
  freed_bytes : Nat
  errors : List String
deriving DecidableEq, Repr

/-- Embeds `CleanupResult::new()` -/
def CleanupResult.new : CleanupResult := ⟨0, 0, []⟩

/-! ## Deletion engine (`cleaner.rs`) -/

/-- The set of paths currently existing on the filesystem. -/
abbrev Fs := List FsPath

/-- The temp-directory allowance of `is_safe_to_delete`:
`/tmp`, `/var/tmp`, `/var/folders` as component-wise prefixes. -/
def tempAllowed (p : FsPath) : Bool :=
  List.isPrefixOf ["tmp"] p || List.isPrefixOf ["var", "tmp"] p ||
    List.isPrefixOf ["var", "folders"] p

/-- The explicit allow-list for direct children of home inside
`is_safe_to_delete` (`matches!` on `file_name`). -/
def homeChildNameAllowed (p : FsPath) : Bool :=
  match fileNameOf p with
  | some n => n == ".Trash" || n == ".cache" || n == "Library/Caches"
  | none => false

/-- Embeds `cleaner.rs`, `is_safe_to_delete`.  `home` is `dirs::home_dir()`:
inside home, a direct child of home is deletable only when its file name
is on the explicit allow-list; deeper paths are deletable; outside home
(or when no home resolves) only the temp roots are deletable. -/
def is_safe_to_delete (home : Option FsPath) (p : FsPath) : Bool :=
  match home with
  | some h =>
    if List.isPrefixOf h p then
      -- path.parent() == Some(&home)
      if !p.isEmpty && p.dropLast == h then homeChildNameAllowed p
      else true
    else tempAllowed p
  | none => tempAllowed p

/-- Embeds `fs::remove_file`: removes the path when it exists, errs otherwise. -/
def removeFileFs (p : FsPath) (fs : Fs) : Except String Fs :=
  if fs.contains p then .ok (fs.erase p)
  else .error ("Failed to delete file: " ++ pathToString p)

/-- Embeds `fs::remove_dir_all`: removes the path and everything under it. -/
def removeDirAllFs (p : FsPath) (fs : Fs) : Except String Fs :=
  if fs.contains p then .ok (fs.filter (fun q => !List.isPrefixOf p q))
  else .error ("Failed to delete directory: " ++ pathToString p)

/-- Embeds `cleaner.rs`, `delete_file`. -/
def delete_file (home : Option FsPath) (p : FsPath) (fs : Fs) :
    Except String Fs :=
  if !is_safe_to_delete home p then
    .error "Refusing to delete path outside home directory"
  else removeFileFs p fs

/-- Embeds `cleaner.rs`, `delete_directory`. -/
def delete_directory (home : Option FsPath) (p : FsPath) (fs : Fs) :
    Except String Fs :=
  if !is_safe_to_delete home p then
    .error "Refusing to delete path outside home directory"
  else removeDirAllFs p fs

/-- One iteration of the loop body of `delete_files`: attempt the item,
then either bump the counters or append the item's error string. -/
def deleteStep (home : Option FsPath) (st : CleanupResult × Fs)
    (file : CleanableFile) : CleanupResult × Fs :=
  let attempt :=
    if file.is_directory then delete_directory home file.path st.2
    else delete_file home file.path st.2
  match attempt with
  | .ok fs' =>
      ({ st.1 with
          deleted_count := st.1.deleted_count + 1,
          freed_bytes := st.1.freed_bytes + file.size }, fs')
  | .error e =>
      ({ st.1 with
          errors := st.1.errors ++ [pathToString file.path ++ ": " ++ e] },
        st.2)

/-- The category filter at the top of `delete_files`. -/
def filterByCategories (files : List CleanableFile)
    (categories : Option (List Category)) : List CleanableFile :=
  match categories with
  | some cats => files.filter (fun f => cats.contains f.category)
  | none => files

/-- Embeds `cleaner.rs`, `delete_files`: filter by category, then attempt every
item in order, threading the filesystem state. -/
def delete_files (home : Option FsPath) (files : List CleanableFile)
    (categories : Option (List Category)) (fs : Fs) : CleanupResult × Fs :=
  (filterByCategories files categories).foldl (deleteStep home)
    (CleanupResult.new, fs)

/-- The per-item outcome trace of `delete_files`: each attempted item
paired with whether its deletion succeeded, threading the filesystem the
same way the loop does. -/
def deleteOutcomes (home : Option FsPath) :
    List CleanableFile → Fs → List (CleanableFile × Bool)
  | [], _ => []
  | f :: rest, fs =>
    let attempt :=
      if f.is_directory then delete_directory home f.path fs
      else delete_file home f.path fs
    match attempt with
    | .ok fs' => (f, true) :: deleteOutcomes home rest fs'
    | .error _ => (f, false) :: deleteOutcomes home rest fs

/-! ## Configuration (`config.rs`) and scan options (`cli.rs`) -/

/-- Rust's `str::contains` (substring containment). -/
def containsSubstr (s pat : String) : Bool :=
  if pat = "" then true else (s.splitOn pat).length != 1

/-- One exclusion pattern applied to a rendered path, as in
`Config::is_excluded`: a pattern with exactly one `*` splits into a
prefix/suffix test, anything else is a substring test. -/
def matchesPattern (pathStr pat : String) : Bool :=
  if pat.contains '*' then
    match pat.splitOn "*" with
    | [pre, suf] => pathStr.startsWith pre && pathStr.endsWith suf
    | _ => containsSubstr pathStr pat
  else containsSubstr pathStr pat

/-- Embeds `config.rs`, struct `Config`. -/
structure Config where
  min_age_days : Nat
  min_large_size_mb : Nat
  project_recent_days : Nat
  download_age_days : Nat
  excluded_paths : List String
  cache_paths : List String
  base_path : Option FsPath
deriving DecidableEq, Repr

/-- Embeds `Config::min_large_size_bytes`. -/
def Config.min_large_size_bytes (c : Config) : Nat :=
  c.min_large_size_mb * 1024 * 1024

/-- Embeds `Config::is_excluded`. -/
def Config.is_excluded (c : Config) (p : FsPath) : Bool :=
  c.excluded_paths.any (fun pat => matchesPattern (pathToString p) pat)

/-- Embeds `cli.rs`, struct `ScanOptions` (the `json` flag is presentation-only
but is part of the struct). -/
structure ScanOptions where
  all : Bool
  cache : Bool
  trash : Bool
  temp : Bool
  downloads : Bool
  build : Bool
  large : Bool
  duplicates : Bool
  old : Bool
  min_age : Option Nat
  min_size : Option String
  project_age : Option Nat
  path : Option String
  exclude : List String
  json : Bool
deriving DecidableEq, Repr

/-! ## Scan-result cache (`scan_cache.rs`) -/

/-- Debug rendering of a `bool` (`Display` in the format string). -/
def fmtBool (b : Bool) : String := if b then "true" else "false"

/-- Debug rendering of an `Option<u32>`. -/
def fmtOptNat : Option Nat → String
  | none => "None"
  | some n => "Some(" ++ toString n ++ ")"

/-- Debug rendering of an `Option<String>`. -/
def fmtOptStr : Option String → String
  | none => "None"
  | some s => "Some(\"" ++ s ++ "\")"

/-- Debug rendering of a `Vec<String>`. -/
def fmtStrList (l : List String) : String :=
  "[" ++ String.intercalate ", " (l.map (fun s => "\"" ++ s ++ "\"")) ++ "]"

/-- Embeds `Vec::sort` on strings: the unique sorted arrangement under the total
lexicographic order. -/
def sortStrings (l : List String) : List String :=
  List.insertionSort (fun a b : String => a ≤ b) l

/-- Embeds `scan_cache.rs`, `options_fingerprint`: the deterministic cache key
built from every option that affects scan output, with the exclusion list
sorted first. -/
def options_fingerprint (o : ScanOptions) : String :=
  let path := o.path.getD ""
  let exclude := sortStrings o.exclude
  "path=" ++ path ++
    " all=" ++ fmtBool o.all ++
    " cache=" ++ fmtBool o.cache ++
    " trash=" ++ fmtBool o.trash ++
    " temp=" ++ fmtBool o.temp ++
    " downloads=" ++ fmtBool o.downloads ++
    " build=" ++ fmtBool o.build ++
    " large=" ++ fmtBool o.large ++
    " duplicates=" ++ fmtBool o.duplicates ++
    " old=" ++ fmtBool o.old ++
    " min_age=" ++ fmtOptNat o.min_age ++
    " min_size=" ++ fmtOptStr o.min_size ++
    " project_age=" ++ fmtOptNat o.project_age ++
    " exclude=" ++ fmtStrList exclude

/-- Embeds `scan_cache.rs`, `CacheEnvelope`. -/
structure CacheEnvelope where
  timestamp_secs : Nat
  options_key : String
  result : ScanResult
deriving DecidableEq, Repr

/-- The persisted cache file: `none` when the file is absent,
`some none` when present but it does not parse as a `CacheEnvelope`,
`some (some env)` when it parses. -/
abbrev CacheStore := Option (Option CacheEnvelope)

/-- Embeds `scan_cache.rs`, `save`: overwrite the cache file with the envelope
stamped `now`; when no cache directory resolves, write nothing. -/
def cacheSave (result : ScanResult) (options : ScanOptions) (now : Nat)
    (cacheAvail : Bool) (store : CacheStore) : CacheStore :=
  if cacheAvail then some (some ⟨now, options_fingerprint options, result⟩)
  else store

/-- Embeds `scan_cache.rs`, `load_if_recent`: miss when no cache path resolves,
the file is absent or unparsable, the envelope is older than
`max_age_secs` (`saturating_sub` is `Nat` subtraction), or the stored
fingerprint differs from the requested one. -/
def load_if_recent (options : ScanOptions) (max_age_secs : Nat) (now : Nat)
    (cacheAvail : Bool) (store : CacheStore) : Option ScanResult :=
  if !cacheAvail then none
  else
    match store with
    | none => none
    | some none => none
    | some (some env) =>
      let age := now - env.timestamp_secs
      if age > max_age_secs then none
      else if env.options_key != options_fingerprint options then none
      else some env.result

/-- Embeds `CACHE_MAX_AGE_SECS`, the default freshness window. -/
def CACHE_MAX_AGE_SECS : Nat := 300

/-- Embeds `scan_cache.rs`, `load_if_recent_default`. -/
def load_if_recent_default (options : ScanOptions) (now : Nat)
    (cacheAvail : Bool) (store : CacheStore) : Option ScanResult :=
  load_if_recent options CACHE_MAX_AGE_SECS now cacheAvail store

/-! ## Scan orchestrator (`analyzer.rs`, `run_scan`)

The scanners themselves perform filesystem I/O; the orchestrator is
embedded as a function of the list of `(scanner name, scan outcome)`
pairs in scanner order, which is what `par_iter().map(..).collect()`
produces (rayon's indexed collect preserves order). -/

/-- Embeds `ScanResult::new()`. -/
def ScanResult.new : ScanResult := ⟨[], []⟩

/-- Embeds `ScanResult::add_files`. -/
def ScanResult.add_files (r : ScanResult) (files : List CleanableFile) :
    ScanResult := { r with files := r.files ++ files }

/-- Embeds `ScanResult::add_error`. -/
def ScanResult.add_error (r : ScanResult) (e : String) : ScanResult :=
  { r with errors := r.errors ++ [e] }

/-- Embeds `ScanResult::total_size`. -/
def ScanResult.total_size (r : ScanResult) : Nat :=
  (r.files.map (fun f => f.size)).sum

/-- Embeds `ScanResult::total_count`. -/
def ScanResult.total_count (r : ScanResult) : Nat := r.files.length

/-- One iteration of the aggregation loop of `run_scan`: merge a
successful scanner's files, or record its error labelled with the
scanner's name. -/
def aggregateStep (acc : ScanResult)
    (s : String × Except String (List CleanableFile)) : ScanResult :=
  match s.2 with
  | .ok files => acc.add_files files
  | .error e => acc.add_error (s.1 ++ ": " ++ e)

/-- The aggregation loop of `run_scan`. -/
def aggregateScans (scans : List (String × Except String (List CleanableFile))) :
    ScanResult :=
  scans.foldl aggregateStep ScanResult.new

/-- The final dedup pass of `run_scan`
(`result.files.retain(|f| seen_paths.insert(f.path.clone()))`):
keep an entry iff its path was not seen before. -/
def dedupByPath (seen : List FsPath) : List CleanableFile → List CleanableFile
  | [] => []
  | f :: rest =>
    if f.path ∈ seen then dedupByPath seen rest
    else f :: dedupByPath (f.path :: seen) rest

/-- Embeds `analyzer.rs`, `run_scan`: aggregate every scanner's outcome (errors
labelled with the scanner's name), then deduplicate files by path,
first occurrence winning. -/
def run_scan (scans : List (String × Except String (List CleanableFile))) :
    ScanResult :=
  let agg := aggregateScans scans
  { agg with files := dedupByPath [] agg.files }

/-! ## Walk entries

A directory walk is embedded from the point where it yields entries.
Each entry carries the metadata the per-entry filters of the scanner
loops consult.  `size` is the value of `metadata.len()`; `content` is the
file's byte content (the blake3 hash is modelled by the content itself);
`metaOk` is whether `entry.metadata()` succeeded, `hashOk` whether the
hash computation succeeded; `projectMarkerSibling` records whether a
`package.json` / `Cargo.toml` / `.git` sibling exists next to the file
(the filesystem probe inside `is_common_needed_large_file`). -/
structure Entry where
  path : FsPath
  isFile : Bool
  size : Nat
  content : List Nat
  atime : Nat
  metaOk : Bool
  hashOk : Bool
  projectMarkerSibling : Bool
deriving DecidableEq, Repr

/-- Embeds `str::starts_with('.')`, computed on the character list. -/
def startsWithDot (s : String) : Bool :=
  match s.data with
  | [] => false
  | c :: _ => c == '.'

/-- A file name beginning with `'.'` (the hidden-file skip in the
scanner loops). -/
def isHiddenName (p : FsPath) : Bool :=
  match fileNameOf p with
  | some n => startsWithDot n
  | none => false

/-- Split a character list on a separator character. -/
def splitOnChar (sep : Char) : List Char → List (List Char)
  | [] => [[]]
  | c :: cs =>
    if c == sep then [] :: splitOnChar sep cs
    else
      match splitOnChar sep cs with
      | [] => [[c]]
      | h :: t => (c :: h) :: t

/-- Embeds `Path::extension`: the part of the file name after the last dot,
`none` when there is no dot or the name is a bare dotfile. -/
def extensionOf (p : FsPath) : Option String :=
  match fileNameOf p with
  | none => none
  | some n =>
    match splitOnChar '.' n.data with
    | [] => none
    | [_] => none
    | first :: rest =>
      if first.isEmpty && rest.length = 1 then none
      else (rest.getLast?).map (fun cs => String.mk cs)

/-- ASCII lowercasing of one character (`str::to_lowercase` on the
ASCII extension strings the scanners compare). -/
def lowerChar (c : Char) : Char :=
  if 65 ≤ c.toNat && c.toNat ≤ 90 then Char.ofNat (c.toNat + 32) else c

/-- ASCII lowercasing of a string. -/
def lowerString (s : String) : String := String.mk (s.data.map lowerChar)

/-! ## Duplicates scanner (`scanner/duplicates.rs`) -/

/-- The 1 MiB minimum size for duplicate detection. -/
def dupMinSize : Nat := 1024 * 1024

/-- The walk-loop filter of `DuplicatesScanner::scan`: regular file, not
excluded, not hidden, metadata readable, size at least 1 MiB. -/
def dupSurvives (cfg : Config) (e : Entry) : Bool :=
  e.isFile && !cfg.is_excluded e.path && !isHiddenName e.path &&
    e.metaOk && decide (dupMinSize ≤ e.size)

/-- Step 1 of the scan: the files collected by the walk. -/
def dupCollected (cfg : Config) (entries : List Entry) : List Entry :=
  entries.filter (dupSurvives cfg)

/-- Association-list grouping: one group per distinct key, each group
holding (in walk order) exactly the elements with that key.  This is the
deterministic counterpart of building a `HashMap` with
`entry(k).or_default().push(v)`; the iteration order over groups is
arbitrary in the source and is quantified over where it matters. -/
def groupByKey {α β : Type} [DecidableEq β] (key : α → β) (l : List α) :
    List (β × List α) :=
  (l.map key).dedup.map (fun k => (k, l.filter (fun e => decide (key e = k))))

/-- Step 1 grouping: files bucketed by exact byte size. -/
def sizeGroups (cfg : Config) (entries : List Entry) :
    List (Nat × List Entry) :=
  groupByKey (fun e => e.size) (dupCollected cfg entries)

/-- Step 2: discard size buckets with a single member. -/
def potentialDuplicates (cfg : Config) (entries : List Entry) :
    List (Nat × List Entry) :=
  (sizeGroups cfg entries).filter (fun g => 1 < g.2.length)

/-- Embeds `DuplicatesScanner::hash_file`, with the hash modelled by the
content: `none` exactly when the streamed read fails. -/
def hash_file (e : Entry) : Option (List Nat) :=
  if e.hashOk then some e.content else none

/-- The files reaching step 3 with a successful hash, in order. -/
def hashedEntries (cfg : Config) (entries : List Entry) : List Entry :=
  ((potentialDuplicates cfg entries).flatMap (fun g => g.2)).filter
    (fun e => (hash_file e).isSome)

/-- Step 3: group the successfully hashed files by hash value. -/
def hashGroups (cfg : Config) (entries : List Entry) :
    List (List Nat × List Entry) :=
  groupByKey (fun e => e.content) (hashedEntries cfg entries)

/-- Sorting key of step 4: last-accessed ascending. -/
def atimeLE (a b : Entry) : Prop := a.atime ≤ b.atime

instance : DecidableRel atimeLE := fun a b => Nat.decLe a.atime b.atime

instance : IsTotal Entry atimeLE := ⟨fun a b => Nat.le_total a.atime b.atime⟩

instance : IsTrans Entry atimeLE :=
  ⟨fun _ _ _ hab hbc => Nat.le_trans hab hbc⟩

/-- Embeds `original_path.file_name()` rendering used in the reason string. -/
def originalName (p : FsPath) : String :=
  (fileNameOf p).getD "Unknown"

/-- The `CleanableFile` built for one duplicate member of a hash group,
referencing the retained original. -/
def mkDupFile (orig e : Entry) : CleanableFile :=
  { path := e.path
    size := e.size
    category := Category.Duplicate
    last_accessed := e.atime
    reason := "Duplicate of: " ++ originalName orig.path
    is_directory := false }

/-- Step 4 on one hash group: groups below two members produce nothing;
otherwise sort by last-accessed ascending (stable, so walk order breaks
ties), keep the head as the original, and emit every other member as a
`Duplicate` referencing the original's name. -/
def processHashGroup (g : List Entry) : List CleanableFile :=
  if g.length < 2 then []
  else
    match List.insertionSort atimeLE g with
    | [] => []
    | orig :: rest => rest.map (mkDupFile orig)

/-- Descending-size order used by the final `sort_by` of several
scanners. -/
def sizeGE (a b : CleanableFile) : Prop := b.size ≤ a.size

instance : DecidableRel sizeGE := fun a b => Nat.decLe b.size a.size

instance : IsTotal CleanableFile sizeGE := ⟨fun a b => Nat.le_total b.size a.size⟩

instance : IsTrans CleanableFile sizeGE :=
  ⟨fun _ _ _ hab hbc => Nat.le_trans hbc hab⟩

/-- Embeds `DuplicatesScanner::scan`, from the walk's entry list: collect and
bucket by size, hash the colliding buckets, group by hash, emit all but
the oldest member of each group, and sort the result by size
descending. -/
def duplicates_scan (cfg : Config) (entries : List Entry) :
    List CleanableFile :=
  List.insertionSort sizeGE
    ((hashGroups cfg entries).flatMap (fun g => processHashGroup g.2))

/-! ## Large files scanner (`scanner/large_files.rs`) -/

/-- Embeds `LargeFilesScanner::is_common_needed_large_file`: database files
whose directory carries a project marker. -/
def is_common_needed_large_file (e : Entry) : Bool :=
  match extensionOf e.path with
  | none => false
  | some ext =>
    let lower := lowerString ext
    (lower == "db" || lower == "sqlite" || lower == "sqlite3") &&
      e.projectMarkerSibling

/-- The per-entry filter of `LargeFilesScanner::scan`. -/
def largeSurvives (cfg : Config) (e : Entry) : Bool :=
  e.isFile && !cfg.is_excluded e.path && !isHiddenName e.path &&
    e.metaOk && decide (cfg.min_large_size_bytes ≤ e.size) &&
    !is_common_needed_large_file e

/-- The `CleanableFile` built for a surviving large file (the reason
string's file-type prefix is presentation only and is folded into the
name here). -/
def mkLargeFile (e : Entry) : CleanableFile :=
  { path := e.path
    size := e.size
    category := Category.LargeFile
    last_accessed := e.atime
    reason := "Large file: " ++ originalName e.path
    is_directory := false }

/-- Embeds `LargeFilesScanner::scan` from the walk's entry list: filter, sort by
size descending, keep the 100 largest. -/
def large_files_scan (cfg : Config) (entries : List Entry) :
    List CleanableFile :=
  (List.insertionSort sizeGE
    ((entries.filter (largeSurvives cfg)).map mkLargeFile)).take 100

/-! ## Old files scanner (`scanner/old_files.rs`) -/

/-- Embeds `is_system_file`: extensions of system/config artifacts. -/
def is_system_file (p : FsPath) : Bool :=
  match extensionOf p with
  | none => false
  | some ext =>
    let lower := lowerString ext
    lower == "plist" || lower == "dylib" || lower == "so" ||
      lower == "dll" || lower == "sys" || lower == "kext" ||
      lower == "bundle"

/-- Embeds `was_accessed_within_days` over entry metadata, with `now` in
seconds: accessed strictly after `now - days` (days in seconds;
`Nat` subtraction saturates at the epoch). -/
def accessedWithinDays (now days : Nat) (e : Entry) : Bool :=
  decide (now - days * 86400 < e.atime)

/-- The per-entry filter of `OldFilesScanner::scan`: regular file, not
excluded, not hidden, not a system file, not accessed within
`min_age_days`, metadata readable, and at least 10 KiB. -/
def oldSurvives (cfg : Config) (now : Nat) (e : Entry) : Bool :=
  e.isFile && !cfg.is_excluded e.path && !isHiddenName e.path &&
    !is_system_file e.path && !accessedWithinDays now cfg.min_age_days e &&
    e.metaOk && decide (10 * 1024 ≤ e.size)

/-- The `CleanableFile` built for a surviving old file. -/
def mkOldFile (e : Entry) : CleanableFile :=
  { path := e.path
    size := e.size
    category := Category.OldFile
    last_accessed := e.atime
    reason := "Not accessed: " ++ originalName e.path
    is_directory := false }

/-- The final order of `OldFilesScanner::scan`: last-accessed ascending,
then size descending. -/
def oldOrder (a b : CleanableFile) : Prop :=
  a.last_accessed < b.last_accessed ∨
    (a.last_accessed = b.last_accessed ∧ b.size ≤ a.size)

instance : DecidableRel oldOrder := fun _ _ => by
  unfold oldOrder; infer_instance

instance : IsTotal CleanableFile oldOrder :=
  ⟨fun a b => by
    unfold oldOrder
    rcases Nat.lt_trichotomy a.last_accessed b.last_accessed with h | h | h
    · exact Or.inl (Or.inl h)
    · rcases Nat.le_total b.size a.size with hs | hs
      · exact Or.inl (Or.inr ⟨h, hs⟩)
      · exact Or.inr (Or.inr ⟨h.symm, hs⟩)
    · exact Or.inr (Or.inl h)⟩

instance : IsTrans CleanableFile oldOrder :=
  ⟨fun a b c hab hbc => by
    unfold oldOrder at *
    rcases hab with h₁ | ⟨h₁, s₁⟩ <;> rcases hbc with h₂ | ⟨h₂, s₂⟩
    · exact Or.inl (Nat.lt_trans h₁ h₂)
    · exact Or.inl (h₂ ▸ h₁)
    · exact Or.inl (h₁ ▸ h₂)
    · exact Or.inr ⟨h₁.trans h₂, Nat.le_trans s₂ s₁⟩⟩

/-- Embeds `OldFilesScanner::scan` from the walk's entry list (the union of the
per-user-data-directory walks): filter, sort oldest first then largest
first, keep the first 200. -/
def old_files_scan (cfg : Config) (now : Nat) (entries : List Entry) :
    List CleanableFile :=
  (List.insertionSort oldOrder
    ((entries.filter (oldSurvives cfg now)).map mkOldFile)).take 200

/-! ## Generic cache scanner (`scanner/cache.rs`, `CacheScanner`) -/

/-- A top-level entry of a cache directory, as `read_dir` yields it:
its path, its measured size (recursive for directories), whether it is a
directory, and its last access time. -/
structure CacheEntry where
  path : FsPath
  size : Nat
  isDir : Bool
  atime : Nat
deriving DecidableEq, Repr

/-- The per-entry filter of `CacheScanner::scan`: not excluded and at
least 1 MiB. -/
def cacheSurvives (cfg : Config) (e : CacheEntry) : Bool :=
  !cfg.is_excluded e.path && decide (1024 * 1024 ≤ e.size)

/-- The `CleanableFile` built for a surviving cache entry. -/
def mkCacheFile (e : CacheEntry) : CleanableFile :=
  { path := e.path
    size := e.size
    category := Category.Cache
    last_accessed := e.atime
    reason := "Cache directory: " ++ originalName e.path
    is_directory := e.isDir }

/-- Embeds `CacheScanner::scan` from the cache directories' top-level entry
list: filter and sort by size descending. -/
def cache_scan (cfg : Config) (entries : List CacheEntry) :
    List CleanableFile :=
  List.insertionSort sizeGE
    ((entries.filter (cacheSurvives cfg)).map mkCacheFile)

/-! ## Temp scanner (`scanner/temp.rs`) -/

/-- A walk entry of a temp-directory scan, carrying the metadata the
loop of `TempScanner::scan` consults: walk depth, whether
`entry.metadata()` succeeded, the read-only permission bit, the measured
size, whether the entry is a directory, whether a modification time was
readable and its value, and the access time used for `last_accessed`. -/
structure TempEntry where
  path : FsPath
  depth : Nat
  metaOk : Bool
  readonly : Bool
  size : Nat
  isDir : Bool
  mtimeOk : Bool
  mtime : Nat
  atime : Nat
deriving DecidableEq, Repr

/-- Embeds `was_modified_within_days` over temp-entry metadata: modified
strictly after `now - days` (days in seconds), and conservatively `true`
when no modification time is readable. -/
def wasModifiedWithinDays (now days : Nat) (e : TempEntry) : Bool :=
  if e.mtimeOk then decide (now - days * 86400 < e.mtime) else true

/-- The per-entry filter of `TempScanner::scan`: not the temp root
itself, not excluded, not modified within the last day, metadata
readable, not read-only, not a small non-directory (under 1 KiB), and
not a directory deeper than the top level. -/
def tempSurvives (cfg : Config) (now : Nat) (root : FsPath)
    (e : TempEntry) : Bool :=
  decide (e.path ≠ root) && !cfg.is_excluded e.path &&
    !wasModifiedWithinDays now 1 e && e.metaOk && !e.readonly &&
    !(decide (e.size < 1024) && !e.isDir) &&
    !(e.isDir && decide (1 < e.depth))

/-- The `CleanableFile` built for a surviving temp entry. -/
def mkTempFile (e : TempEntry) : CleanableFile :=
  { path := e.path
    size := e.size
    category := Category.Temp
    last_accessed := e.atime
    reason := "Temp file: " ++ originalName e.path
    is_directory := e.isDir }

/-- Embeds `TempScanner::scan` from one temp root's walk entries: filter
and sort by size descending. -/
def temp_scan (cfg : Config) (now : Nat) (root : FsPath)
    (entries : List TempEntry) : List CleanableFile :=
  List.insertionSort sizeGE
    ((entries.filter (tempSurvives cfg now root)).map mkTempFile)

/-! ## Build-artifacts scanner (`scanner/build_artifacts.rs`) -/

/-- A candidate artifact directory, as the walk of
`BuildArtifactsScanner::scan` yields it once its name has matched an
`ARTIFACT_PATTERNS` entry: the pattern's description, whether the
pattern requires a project-marker file and whether that file exists next
to the directory, whether `is_project_recently_used` holds for the
containing project, the recursive size, and the modification time used
for `last_accessed`. -/
structure ArtifactEntry where
  path : FsPath
  description : String
  projectFileRequired : Bool
  projectFileExists : Bool
  recentlyUsed : Bool
  size : Nat
  mtime : Nat
deriving DecidableEq, Repr

/-- The per-candidate filter of `BuildArtifactsScanner::scan`: not
excluded, required project file present, project not recently used, and
at least 1 MiB. -/
def artifactSurvives (cfg : Config) (e : ArtifactEntry) : Bool :=
  !cfg.is_excluded e.path &&
    (!e.projectFileRequired || e.projectFileExists) &&
    !e.recentlyUsed && decide (1024 * 1024 ≤ e.size)

/-- The name of the containing project (`parent.file_name()`). -/
def parentName (p : FsPath) : String :=
  (p.dropLast.getLast?).getD "Unknown"

/-- The `CleanableFile` built for a surviving artifact directory. -/
def mkArtifactFile (e : ArtifactEntry) : CleanableFile :=
  { path := e.path
    size := e.size
    category := Category.BuildArtifact
    last_accessed := e.mtime
    reason := e.description ++ " in project '" ++ parentName e.path ++ "'"
    is_directory := true }

/-- Embeds `BuildArtifactsScanner::scan` from the matched candidate
list: filter and sort by size descending. -/
def build_artifacts_scan (cfg : Config) (entries : List ArtifactEntry) :
    List CleanableFile :=
  List.insertionSort sizeGE
    ((entries.filter (artifactSurvives cfg)).map mkArtifactFile)

/-! ## Known-cache and global-cache scanners
(`scanner/cache.rs`, `KnownCacheScanner`;
`scanner/build_artifacts.rs`, `GlobalCacheScanner`) -/

/-- One entry of the fixed path list these two scanners iterate: the
path under home, its description, whether it exists on disk, its
recursive size, and the timestamp used for `last_accessed` (access time
for the known-cache scanner, modification time for the global-cache
scanner). -/
structure FixedPathEntry where
  path : FsPath
  description : String
  present : Bool
  size : Nat
  time : Nat
deriving DecidableEq, Repr

/-- The per-entry filter of `KnownCacheScanner::scan`: exists, not
excluded, and at least 10 MiB. -/
def knownCacheSurvives (cfg : Config) (e : FixedPathEntry) : Bool :=
  e.present && !cfg.is_excluded e.path &&
    decide (10 * 1024 * 1024 ≤ e.size)

/-- The `CleanableFile` built for a surviving known cache. -/
def mkKnownCacheFile (e : FixedPathEntry) : CleanableFile :=
  { path := e.path
    size := e.size
    category := Category.Cache
    last_accessed := e.time
    reason := e.description
    is_directory := true }

/-- Embeds `KnownCacheScanner::scan` from its fixed path list: filter and
sort by size descending. -/
def known_cache_scan (cfg : Config) (entries : List FixedPathEntry) :
    List CleanableFile :=
  List.insertionSort sizeGE
    ((entries.filter (knownCacheSurvives cfg)).map mkKnownCacheFile)

/-- The per-entry filter of `GlobalCacheScanner::scan`: exists, not
excluded, and at least 10 MiB. -/
def globalCacheSurvives (cfg : Config) (e : FixedPathEntry) : Bool :=
  e.present && !cfg.is_excluded e.path &&
    decide (10 * 1024 * 1024 ≤ e.size)

/-- The `CleanableFile` built for a surviving global cache. -/
def mkGlobalCacheFile (e : FixedPathEntry) : CleanableFile :=
  { path := e.path
    size := e.size
    category := Category.BuildArtifact
    last_accessed := e.time
    reason := e.description
    is_directory := true }

/-- Embeds `GlobalCacheScanner::scan` from its fixed path list: filter
and sort by size descending. -/
def global_cache_scan (cfg : Config) (entries : List FixedPathEntry) :
    List CleanableFile :=
  List.insertionSort sizeGE
    ((entries.filter (globalCacheSurvives cfg)).map mkGlobalCacheFile)

/-! # Theorems -/

/-! ## Deletion-engine safety (C1, C2) -/

/-- Helper: the containment check rejects the two refused families of
paths. -/
lemma is_safe_to_delete_eq_false {h : FsPath} {p : FsPath}
    (hcond : (List.isPrefixOf h p = false ∧ tempAllowed p = false) ∨
      (p ≠ [] ∧ p.dropLast = h ∧ homeChildNameAllowed p = false)) :
    is_safe_to_delete (some h) p = false := by
  rcases hcond with ⟨hpre, htemp⟩ | ⟨hne, hparent, hname⟩
  · simp [is_safe_to_delete, hpre, htemp]
  · have hpre : List.isPrefixOf h p = true := by
      rw [ List.isPrefixOf_iff_prefix]
      exact hparent ▸ List.dropLast_prefix p
    have hempty : p.isEmpty = false := by
      cases p with
      | nil => exact absurd rfl hne
      | cons a t => rfl
    have hdl : (p.dropLast == h) = true := beq_iff_eq.mpr hparent
    simp [is_safe_to_delete, hpre, hempty, hdl, hname]

/-- C1: every path outside the home directory and outside the temp
allow-list, and every direct child of home whose name is not on the
explicit allow-list, is refused by the deletion engine: the containment
check fails, `delete_file` and `delete_directory` return the refusal
error, and the deletion loop records the item as a per-item error while
leaving the filesystem untouched. -/
theorem claim_C1_outside_paths_refused (h : FsPath) (f : CleanableFile)
    (r : CleanupResult) (fs : Fs)
    (hcond : (List.isPrefixOf h f.path = false ∧ tempAllowed f.path = false) ∨
      (f.path ≠ [] ∧ f.path.dropLast = h ∧
        homeChildNameAllowed f.path = false)) :
    is_safe_to_delete (some h) f.path = false ∧
    delete_file (some h) f.path fs =
      .error "Refusing to delete path outside home directory" ∧
    delete_directory (some h) f.path fs =
      .error "Refusing to delete path outside home directory" ∧
    deleteStep (some h) (r, fs) f =
      ({ r with errors := r.errors ++
          [pathToString f.path ++ ": " ++
            "Refusing to delete path outside home directory"] }, fs) := by
  have hsafe := is_safe_to_delete_eq_false hcond
  have hfile : delete_file (some h) f.path fs =
      .error "Refusing to delete path outside home directory" := by
    simp [delete_file, hsafe]
  have hdir : delete_directory (some h) f.path fs =
      .error "Refusing to delete path outside home directory" := by
    simp [delete_directory, hsafe]
  refine ⟨hsafe, hfile, hdir, ?_⟩
  cases hd : f.is_directory <;> simp [deleteStep, hd, hfile, hdir]

/-- Witness for C1 at `/etc/passwd` (outside home and temp roots) with
home `/home/user`. -/
theorem claim_C1_outside_paths_refused_witness :
    is_safe_to_delete (some ["home", "user"]) ["etc", "passwd"] = false ∧
    delete_file (some ["home", "user"]) ["etc", "passwd"] [] =
      .error "Refusing to delete path outside home directory" ∧
    delete_directory (some ["home", "user"]) ["etc", "passwd"] [] =
      .error "Refusing to delete path outside home directory" ∧
    deleteStep (some ["home", "user"])
      (CleanupResult.new, ([] : Fs))
      { path := ["etc", "passwd"], size := 5, category := Category.Cache,
        last_accessed := 0, reason := "", is_directory := false } =
      ({ CleanupResult.new with errors := CleanupResult.new.errors ++
          [pathToString ["etc", "passwd"] ++ ": " ++
            "Refusing to delete path outside home directory"] },
        ([] : Fs)) :=
  claim_C1_outside_paths_refused ["home", "user"]
    { path := ["etc", "passwd"], size := 5, category := Category.Cache,
      last_accessed := 0, reason := "", is_directory := false }
    CleanupResult.new [] (Or.inl (by decide))

/-- C2: any path strictly below a direct child of home (depth at least
two below home) passes the containment check, whatever top-level folder
contains it, and deletion proceeds to the filesystem operation. -/
theorem claim_C2_nested_home_paths_permitted (h p : FsPath) (fs : Fs)
    (hpre : h <+: p) (hdepth : h.length + 2 ≤ p.length) :
    is_safe_to_delete (some h) p = true ∧
    delete_file (some h) p fs = removeFileFs p fs ∧
    delete_directory (some h) p fs = removeDirAllFs p fs := by
  have hpre' : List.isPrefixOf h p = true := List.isPrefixOf_iff_prefix.mpr hpre
  have hdl : (p.dropLast == h) = false := by
    rw [beq_eq_false_iff_ne]
    intro heq
    have hlen : p.dropLast.length = p.length - 1 := List.length_dropLast p
    rw [heq] at hlen
    omega
  have hsafe : is_safe_to_delete (some h) p = true := by
    simp [is_safe_to_delete, hpre', hdl]
  exact ⟨hsafe, by simp [delete_file, hsafe], by simp [delete_directory, hsafe]⟩

/-! ## Deletion-engine accounting (C5) -/

/-- Helper: the outcome trace lists exactly the attempted items. -/
lemma deleteOutcomes_map_fst (home : Option FsPath) :
    ∀ (l : List CleanableFile) (fs : Fs),
      (deleteOutcomes home l fs).map Prod.fst = l := by
  intro l
  induction l with
  | nil => intro fs; rfl
  | cons f rest ih =>
    intro fs
    simp only [deleteOutcomes]
    cases hatt : (if f.is_directory then delete_directory home f.path fs
        else delete_file home f.path fs) with
    | ok fs' => simp [hatt, ih]
    | error e => simp [hatt, ih]

/-- Helper: the loop of `delete_files` accounts every item via its
outcome: successes drive `deleted_count` and `freed_bytes`, failures
drive `errors`. -/
lemma delete_loop_spec (home : Option FsPath) :
    ∀ (l : List CleanableFile) (r : CleanupResult) (fs : Fs),
      (l.foldl (deleteStep home) (r, fs)).1.deleted_count =
        r.deleted_count +
          ((deleteOutcomes home l fs).filter (fun o => o.2)).length ∧
      (l.foldl (deleteStep home) (r, fs)).1.freed_bytes =
        r.freed_bytes +
          (((deleteOutcomes home l fs).filter (fun o => o.2)).map
            (fun o => o.1.size)).sum ∧
      (l.foldl (deleteStep home) (r, fs)).1.errors.length =
        r.errors.length +
          ((deleteOutcomes home l fs).filter (fun o => !o.2)).length := by
  intro l
  induction l with
  | nil => intro r fs; simp [deleteOutcomes]
  | cons f rest ih =>
    intro r fs
    simp only [List.foldl_cons]
    cases hatt : (if f.is_directory then delete_directory home f.path fs
        else delete_file home f.path fs) with
    | ok fs' =>
      have hstep : deleteStep home (r, fs) f =
          ({ r with
              deleted_count := r.deleted_count + 1
              freed_bytes := r.freed_bytes + f.size }, fs') := by
        simp [deleteStep, hatt]
      obtain ⟨h1, h2, h3⟩ := ih
        { r with
            deleted_count := r.deleted_count + 1
            freed_bytes := r.freed_bytes + f.size } fs'
      rw [hstep]
      refine ⟨?_, ?_, ?_⟩
      · simp only [deleteOutcomes, hatt]
        simp only [h1]
        simp
        omega
      · simp only [deleteOutcomes, hatt]
        simp only [h2]
        simp
        omega
      · simp only [deleteOutcomes, hatt]
        simp only [h3]
        simp

    | error e =>
      have hstep : deleteStep home (r, fs) f =
          ({ r with errors := r.errors ++
              [pathToString f.path ++ ": " ++ e] }, fs) := by
        simp [deleteStep, hatt]
      obtain ⟨h1, h2, h3⟩ := ih { r with errors := r.errors ++
        [pathToString f.path ++ ": " ++ e] } fs
      rw [hstep]
      refine ⟨?_, ?_, ?_⟩
      · simp only [deleteOutcomes, hatt]
        simp only [h1]
        simp
      · simp only [deleteOutcomes, hatt]
        simp only [h2]
        simp
      · simp only [deleteOutcomes, hatt]
        simp only [h3]
        simp
        omega

/-- C5: in `delete_files` every filtered candidate is attempted
independently (the outcome trace lists each of them exactly once, a
failure never stopping the loop); each success adds one to
`deleted_count` and the item's pre-recorded `size` to `freed_bytes`,
each failure appends exactly one error string, so `deleted_count` plus
the number of errors equals the number of filtered candidates. -/
theorem claim_C5_independent_deletion_accounting (home : Option FsPath)
    (files : List CleanableFile) (categories : Option (List Category))
    (fs : Fs) :
    (deleteOutcomes home (filterByCategories files categories) fs).map
        Prod.fst = filterByCategories files categories ∧
    (delete_files home files categories fs).1.deleted_count =
      ((deleteOutcomes home (filterByCategories files categories)
        fs).filter (fun o => o.2)).length ∧
    (delete_files home files categories fs).1.freed_bytes =
      (((deleteOutcomes home (filterByCategories files categories)
        fs).filter (fun o => o.2)).map (fun o => o.1.size)).sum ∧
    (delete_files home files categories fs).1.errors.length =
      ((deleteOutcomes home (filterByCategories files categories)
        fs).filter (fun o => !o.2)).length ∧
    (delete_files home files categories fs).1.deleted_count +
        (delete_files home files categories fs).1.errors.length =
      (filterByCategories files categories).length := by
  obtain ⟨h1, h2, h3⟩ :=
    delete_loop_spec home (filterByCategories files categories)
      CleanupResult.new fs
  have hmap := deleteOutcomes_map_fst home
    (filterByCategories files categories) fs
  have hlen : (deleteOutcomes home (filterByCategories files categories)
      fs).length = (filterByCategories files categories).length := by
    have := congrArg List.length hmap
    rwa [List.length_map] at this
  refine ⟨hmap, ?_, ?_, ?_, ?_⟩
  · simpa [delete_files, CleanupResult.new] using h1
  · simpa [delete_files, CleanupResult.new] using h2
  · simpa [delete_files, CleanupResult.new] using h3
  · have hsplit : ((deleteOutcomes home (filterByCategories files categories)
          fs).filter (fun o => o.2)).length +
        ((deleteOutcomes home (filterByCategories files categories)
          fs).filter (fun o => !o.2)).length =
        (deleteOutcomes home (filterByCategories files categories)
          fs).length :=
      (List.length_eq_length_filter_add _).symm
    have ha : CleanupResult.new.deleted_count = 0 := rfl
    have hb : CleanupResult.new.errors.length = 0 := rfl
    simp only [delete_files]
    rw [h1, h3, ha, hb]
    omega

/-- Witness for C2 at `~/Documents/report.txt` with home `/home/user`. -/
theorem claim_C2_nested_home_paths_permitted_witness :
    is_safe_to_delete (some ["home", "user"])
      ["home", "user", "Documents", "report.txt"] = true ∧
    delete_file (some ["home", "user"])
      ["home", "user", "Documents", "report.txt"] [] =
      removeFileFs ["home", "user", "Documents", "report.txt"] [] ∧
    delete_directory (some ["home", "user"])
      ["home", "user", "Documents", "report.txt"] [] =
      removeDirAllFs ["home", "user", "Documents", "report.txt"] [] :=
  claim_C2_nested_home_paths_permitted ["home", "user"]
    ["home", "user", "Documents", "report.txt"] []
    (by decide) (by decide)

/-! ## Orchestrator aggregation (C3, C7) -/

/-- The files of the successful scanners, in aggregation order. -/
def scanOkFiles (scans : List (String × Except String (List CleanableFile))) :
    List CleanableFile :=
  scans.flatMap (fun s =>
    match s.2 with
    | .ok files => files
    | .error _ => [])

/-- The labelled error strings of the failed scanners, in aggregation
order. -/
def scanErrLabels (scans : List (String × Except String (List CleanableFile))) :
    List String :=
  scans.filterMap (fun s =>
    match s.2 with
    | .ok _ => none
    | .error e => some (s.1 ++ ": " ++ e))

/-- Helper: the aggregation loop appends each scanner's files on success
and its labelled error on failure. -/
lemma aggregate_go :
    ∀ (scans : List (String × Except String (List CleanableFile)))
      (acc : ScanResult),
      scans.foldl aggregateStep acc =
        ⟨acc.files ++ scanOkFiles scans, acc.errors ++ scanErrLabels scans⟩ := by
  intro scans
  induction scans with
  | nil => intro acc; simp [scanOkFiles, scanErrLabels]
  | cons s rest ih =>
    intro acc
    cases hs : s.2 with
    | ok files =>
      simp [List.foldl_cons, aggregateStep, hs, ih, scanOkFiles,
        scanErrLabels, ScanResult.add_files, List.append_assoc]
    | error e =>
      simp [List.foldl_cons, aggregateStep, hs, ih, scanOkFiles,
        scanErrLabels, ScanResult.add_error, List.append_assoc]

/-- Helper: `aggregateScans` collects exactly the successful files and
the labelled errors. -/
lemma aggregateScans_eq
    (scans : List (String × Except String (List CleanableFile))) :
    aggregateScans scans = ⟨scanOkFiles scans, scanErrLabels scans⟩ := by
  simpa [aggregateScans, ScanResult.new] using aggregate_go scans ScanResult.new

/-- Helper: the dedup pass yields a sublist of its input. -/
lemma dedupByPath_sublist :
    ∀ (seen : List FsPath) (l : List CleanableFile),
      (dedupByPath seen l).Sublist l := by
  intro seen l
  induction l generalizing seen with
  | nil => simp [dedupByPath]
  | cons f rest ih =>
    by_cases hmem : f.path ∈ seen
    · simp only [dedupByPath, if_pos hmem]
      exact (ih seen).trans (List.sublist_cons_self f rest)
    · simp only [dedupByPath, if_neg hmem]
      exact (ih (f.path :: seen)).cons₂ f

/-- Helper: no element surviving the dedup pass has a path in the seen
set. -/
lemma dedupByPath_not_seen :
    ∀ (seen : List FsPath) (l : List CleanableFile) (f : CleanableFile),
      f ∈ dedupByPath seen l → f.path ∉ seen := by
  intro seen l
  induction l generalizing seen with
  | nil => intro f hf; simp [dedupByPath] at hf
  | cons g rest ih =>
    intro f hf
    by_cases hmem : g.path ∈ seen
    · rw [dedupByPath, if_pos hmem] at hf
      exact ih seen f hf
    · rw [dedupByPath, if_neg hmem] at hf
      rcases List.mem_cons.mp hf with he | hf'
      · rw [he]; exact hmem
      · have := ih (g.path :: seen) f hf'
        exact fun hin => this (List.mem_cons_of_mem _ hin)

/-- Helper: the dedup pass produces pairwise-distinct paths. -/
lemma dedupByPath_nodup :
    ∀ (seen : List FsPath) (l : List CleanableFile),
      ((dedupByPath seen l).map (fun f => f.path)).Nodup := by
  intro seen l
  induction l generalizing seen with
  | nil => simp [dedupByPath]
  | cons f rest ih =>
    by_cases hmem : f.path ∈ seen
    · rw [dedupByPath, if_pos hmem]; exact ih seen
    · rw [dedupByPath, if_neg hmem]
      rw [List.map_cons, List.nodup_cons]
      refine ⟨?_, ih (f.path :: seen)⟩
      intro hin
      obtain ⟨g, hg, hgp⟩ := List.mem_map.mp hin
      exact dedupByPath_not_seen _ _ _ hg (hgp ▸ List.mem_cons_self _ _)

/-- Helper: for a path not yet seen, the first dedup survivor with that
path is the first occurrence in the input. -/
lemma dedupByPath_find? :
    ∀ (seen : List FsPath) (l : List CleanableFile) (p : FsPath),
      p ∉ seen →
      (dedupByPath seen l).find? (fun f => f.path == p) =
        l.find? (fun f => f.path == p) := by
  intro seen l
  induction l generalizing seen with
  | nil => intro p _; simp [dedupByPath]
  | cons f rest ih =>
    intro p hp
    by_cases hmem : f.path ∈ seen
    · rw [dedupByPath, if_pos hmem]
      have hne : (f.path == p) = false := by
        rw [beq_eq_false_iff_ne]
        intro he
        exact hp (he ▸ hmem)
      rw [List.find?_cons, hne]
      exact ih seen p hp
    · rw [dedupByPath, if_neg hmem]
      cases hbeq : (f.path == p) with
      | true => rw [List.find?_cons, hbeq, List.find?_cons, hbeq]
      | false =>
        rw [List.find?_cons, hbeq, List.find?_cons, hbeq]
        refine ih (f.path :: seen) p ?_
        intro hin
        rcases List.mem_cons.mp hin with he | he
        · rw [beq_eq_false_iff_ne] at hbeq
          exact hbeq he.symm
        · exact hp he

/-- C3: the files of any `run_scan` result have pairwise-distinct paths;
the result is a sublist of the raw aggregation, and for every path the
retained entry is exactly the first occurrence in aggregation order
(later duplicates are dropped). -/
theorem claim_C3_scan_result_paths_unique
    (scans : List (String × Except String (List CleanableFile))) :
    (((run_scan scans).files.map (fun f => f.path)).Nodup) ∧
    (run_scan scans).files.Sublist (aggregateScans scans).files ∧
    ∀ p : FsPath,
      (run_scan scans).files.find? (fun f => f.path == p) =
        (aggregateScans scans).files.find? (fun f => f.path == p) := by
  refine ⟨dedupByPath_nodup [] _, dedupByPath_sublist [] _, fun p => ?_⟩
  exact dedupByPath_find? [] _ p (by simp)

/-- C7: `run_scan` records each failed scanner's error labelled with the
scanner's name, and the files of every scanner that succeeded are still
represented in the result (by path, after dedup); an individual failure
never aborts the scan. -/
theorem claim_C7_scanner_failures_isolated
    (scans : List (String × Except String (List CleanableFile))) :
    (run_scan scans).errors = scanErrLabels scans ∧
    ∀ s ∈ scans, ∀ files, s.2 = .ok files →
      ∀ f ∈ files, ∃ g ∈ (run_scan scans).files, g.path = f.path := by
  constructor
  · simp [run_scan, aggregateScans_eq]
  · intro s hs files hok f hf
    have hmem : f ∈ (aggregateScans scans).files := by
      rw [aggregateScans_eq]
      refine List.mem_flatMap.mpr ⟨s, hs, ?_⟩
      rw [hok]
      exact hf
    have hsome : ((aggregateScans scans).files.find?
        (fun g => g.path == f.path)).isSome := by
      rw [List.find?_isSome]
      exact ⟨f, hmem, beq_self_eq_true _⟩
    obtain ⟨g, hg⟩ := Option.isSome_iff_exists.mp hsome
    have hg' : (run_scan scans).files.find? (fun g => g.path == f.path) =
        some g := by
      rw [show (run_scan scans).files = dedupByPath []
        (aggregateScans scans).files from rfl]
      rw [dedupByPath_find? [] _ _ (by simp)]
      exact hg
    refine ⟨g, List.mem_of_find?_eq_some hg', ?_⟩
    have := List.find?_some hg'
    exact beq_iff_eq.mp this

/-- A concrete cleanable file used by the orchestrator witness. -/
def sampleCacheFile : CleanableFile :=
  { path := ["home", "u", ".cache", "x"]
    size := 2097152
    category := Category.Cache
    last_accessed := 0
    reason := "Cache directory: x"
    is_directory := true }

/-- A concrete scanner outcome list with one failing scanner between two
succeeding ones. -/
def sampleScans : List (String × Except String (List CleanableFile)) :=
  [("Cache Scanner", .ok [sampleCacheFile]),
    ("Trash Scanner", .error "walk failed"),
    ("Temp Scanner", .ok [])]

/-- Witness for C7: on `sampleScans` the error is labelled and the
succeeding scanner's file is represented. -/
theorem claim_C7_scanner_failures_isolated_witness :
    (run_scan sampleScans).errors = scanErrLabels sampleScans ∧
    ∃ g ∈ (run_scan sampleScans).files, g.path = sampleCacheFile.path := by
  obtain ⟨h1, h2⟩ := claim_C7_scanner_failures_isolated sampleScans
  refine ⟨h1, ?_⟩
  exact h2 ("Cache Scanner", .ok [sampleCacheFile])
    (by simp [sampleScans]) [sampleCacheFile] rfl sampleCacheFile
    (List.mem_singleton.mpr rfl)

/-! ## Duplicates pipeline infrastructure (C4, C8, C9) -/

/-- Helper: membership in `groupByKey` characterised. -/
lemma mem_groupByKey {α β : Type} [DecidableEq β] {key : α → β}
    {l : List α} {g : β × List α} :
    g ∈ groupByKey key l ↔
      g.1 ∈ (l.map key).dedup ∧
        g.2 = l.filter (fun e => decide (key e = g.1)) := by
  unfold groupByKey
  rw [List.mem_map]
  constructor
  · rintro ⟨k, hk, rfl⟩
    exact ⟨hk, rfl⟩
  · rintro ⟨h1, h2⟩
    refine ⟨g.1, h1, ?_⟩
    rw [← h2]

/-- Helper: the keys of `groupByKey` are the dedup of the mapped keys. -/
lemma groupByKey_keys {α β : Type} [DecidableEq β] (key : α → β)
    (l : List α) :
    (groupByKey key l).map Prod.fst = (l.map key).dedup := by
  unfold groupByKey
  rw [List.map_map]
  exact List.map_id'' (fun _ => rfl) _

/-- Helper: a flat map over an association list with pairwise-distinct
keys where every group but one maps to `[]` collapses to that group's
image. -/
lemma flatMap_single {β γ δ : Type} :
    ∀ (l : List (β × δ)) (f : β × δ → List γ) (k₀ : β) (v : δ),
      (l.map Prod.fst).Nodup → (k₀, v) ∈ l →
      (∀ g ∈ l, g.1 ≠ k₀ → f g = []) →
      l.flatMap f = f (k₀, v) := by
  intro l
  induction l with
  | nil => intro f k₀ v _ hmem _; cases hmem
  | cons g t ih =>
    intro f k₀ v hnd hmem hnil
    rw [List.map_cons, List.nodup_cons] at hnd
    obtain ⟨hg, hnd'⟩ := hnd
    rcases List.mem_cons.mp hmem with he | hmem'
    · have hgk : g.1 = k₀ := by rw [← he]
      have htail : t.flatMap f = [] := by
        rw [List.flatMap_eq_nil_iff]
        intro g' hg'
        refine hnil g' (List.mem_cons_of_mem _ hg') ?_
        intro hk
        apply hg
        rw [hgk, ← hk]
        exact List.mem_map.mpr ⟨g', hg', rfl⟩
      rw [List.flatMap_cons, htail, List.append_nil, ← he]
    · have hk : g.1 ≠ k₀ := by
        intro h
        apply hg
        rw [h]
        exact List.mem_map.mpr ⟨(k₀, v), hmem', rfl⟩
      rw [List.flatMap_cons, hnil g (List.mem_cons_self _ _) hk,
        List.nil_append]
      exact ih f k₀ v hnd' hmem' fun g' hg' => hnil g' (List.mem_cons_of_mem _ hg')

/-- Helper: every member of a size bucket reaching the hash phase is a
collected file of the bucket's size. -/
lemma mem_of_mem_potential {cfg : Config} {entries : List Entry}
    {g : Nat × List Entry} {e : Entry}
    (hg : g ∈ potentialDuplicates cfg entries) (he : e ∈ g.2) :
    e ∈ dupCollected cfg entries ∧ e.size = g.1 := by
  have hg' : g ∈ sizeGroups cfg entries := List.mem_of_mem_filter hg
  have hmem := (mem_groupByKey.mp hg').2
  rw [hmem] at he
  have hp := List.of_mem_filter he
  exact ⟨List.mem_of_mem_filter he, by
    simpa [decide_eq_true_eq] using hp⟩

/-- Helper: every successfully hashed file is a collected file with a
working hash. -/
lemma mem_hashedEntries {cfg : Config} {entries : List Entry} {e : Entry}
    (he : e ∈ hashedEntries cfg entries) :
    e ∈ dupCollected cfg entries ∧ e.hashOk = true := by
  unfold hashedEntries at he
  have hok := List.of_mem_filter he
  have hmem := List.mem_of_mem_filter he
  obtain ⟨g, hg, hge⟩ := List.mem_flatMap.mp hmem
  refine ⟨(mem_of_mem_potential hg hge).1, ?_⟩
  unfold hash_file at hok
  cases h : e.hashOk with
  | true => rfl
  | false => rw [h] at hok; simp at hok

/-- Helper: every member of a hash group is a successfully hashed file
whose content is the group's key. -/
lemma mem_of_mem_hashGroup {cfg : Config} {entries : List Entry}
    {g : List Nat × List Entry} {e : Entry}
    (hg : g ∈ hashGroups cfg entries) (he : e ∈ g.2) :
    e ∈ hashedEntries cfg entries ∧ e.content = g.1 := by
  have hmem := (mem_groupByKey.mp hg).2
  rw [hmem] at he
  have hp := List.of_mem_filter he
  exact ⟨List.mem_of_mem_filter he, by simpa [decide_eq_true_eq] using hp⟩

/-- Helper: what a nonempty `processHashGroup` output looks like. -/
lemma processHashGroup_mem {g : List Entry} {f : CleanableFile}
    (hf : f ∈ processHashGroup g) :
    2 ≤ g.length ∧ ∃ orig rest, List.insertionSort atimeLE g = orig :: rest ∧
      f ∈ rest.map (mkDupFile orig) := by
  unfold processHashGroup at hf
  by_cases hlen : g.length < 2
  · rw [if_pos hlen] at hf; cases hf
  · rw [if_neg hlen] at hf
    refine ⟨by omega, ?_⟩
    cases hs : List.insertionSort atimeLE g with
    | nil => rw [hs] at hf; cases hf
    | cons orig rest =>
      rw [hs] at hf
      exact ⟨orig, rest, rfl, hf⟩

/-- Helper: the head of the access-time sort is a member of minimal
access time. -/
lemma insertionSort_head_min {g : List Entry} {orig : Entry}
    {rest : List Entry}
    (h : List.insertionSort atimeLE g = orig :: rest) :
    orig ∈ g ∧ (∀ e ∈ rest, e ∈ g) ∧ ∀ e ∈ g, orig.atime ≤ e.atime := by
  have hperm : (orig :: rest).Perm g := h ▸ List.perm_insertionSort atimeLE g
  have hsorted : List.Sorted atimeLE (orig :: rest) :=
    h ▸ List.sorted_insertionSort atimeLE g
  refine ⟨hperm.mem_iff.mp (List.mem_cons_self _ _),
    fun e he => hperm.mem_iff.mp (List.mem_cons_of_mem _ he), fun e he => ?_⟩
  rcases List.mem_cons.mp (hperm.mem_iff.mpr he) with he' | he'
  · rw [he']
  · exact List.rel_of_sorted_cons hsorted e he'

/-- Helper: every reported duplicate corresponds to a collected file
(same path and size). -/
lemma mem_duplicates_scan {cfg : Config} {entries : List Entry}
    {f : CleanableFile} (hf : f ∈ duplicates_scan cfg entries) :
    ∃ e, e ∈ dupCollected cfg entries ∧ f.path = e.path ∧
      f.size = e.size := by
  unfold duplicates_scan at hf
  rw [(List.perm_insertionSort sizeGE _).mem_iff] at hf
  obtain ⟨g, hg, hgf⟩ := List.mem_flatMap.mp hf
  obtain ⟨_, orig, rest, hsort, hmap⟩ := processHashGroup_mem hgf
  obtain ⟨e, he, hfe⟩ := List.mem_map.mp hmap
  have heg : e ∈ g.2 := (insertionSort_head_min hsort).2.1 e he
  have hcol := (mem_hashedEntries (mem_of_mem_hashGroup hg heg).1).1
  exact ⟨e, hcol, by rw [← hfe]; rfl, by rw [← hfe]; rfl⟩

/-- Helper: every file reported by the large-files scanner survives its
filter. -/
lemma mem_large_files_scan {cfg : Config} {entries : List Entry}
    {f : CleanableFile} (hf : f ∈ large_files_scan cfg entries) :
    ∃ e, largeSurvives cfg e = true ∧ f = mkLargeFile e := by
  unfold large_files_scan at hf
  have hf' := List.mem_of_mem_take hf
  rw [(List.perm_insertionSort sizeGE _).mem_iff] at hf'
  obtain ⟨e, he, hfe⟩ := List.mem_map.mp hf'
  exact ⟨e, List.of_mem_filter he, hfe.symm⟩

/-- Helper: every file reported by the old-files scanner survives its
filter. -/
lemma mem_old_files_scan {cfg : Config} {now : Nat} {entries : List Entry}
    {f : CleanableFile} (hf : f ∈ old_files_scan cfg now entries) :
    ∃ e, oldSurvives cfg now e = true ∧ f = mkOldFile e := by
  unfold old_files_scan at hf
  have hf' := List.mem_of_mem_take hf
  rw [(List.perm_insertionSort oldOrder _).mem_iff] at hf'
  obtain ⟨e, he, hfe⟩ := List.mem_map.mp hf'
  exact ⟨e, List.of_mem_filter he, hfe.symm⟩

/-- Helper: every file reported by the generic cache scanner survives
its filter. -/
lemma mem_cache_scan {cfg : Config} {centries : List CacheEntry}
    {f : CleanableFile} (hf : f ∈ cache_scan cfg centries) :
    ∃ e, cacheSurvives cfg e = true ∧ f = mkCacheFile e := by
  unfold cache_scan at hf
  rw [(List.perm_insertionSort sizeGE _).mem_iff] at hf
  obtain ⟨e, he, hfe⟩ := List.mem_map.mp hf
  exact ⟨e, List.of_mem_filter he, hfe.symm⟩

/-- Helper: every file reported by the temp scanner survives its
filter. -/
lemma mem_temp_scan {cfg : Config} {now : Nat} {root : FsPath}
    {tentries : List TempEntry} {f : CleanableFile}
    (hf : f ∈ temp_scan cfg now root tentries) :
    ∃ e, tempSurvives cfg now root e = true ∧ f = mkTempFile e := by
  unfold temp_scan at hf
  rw [(List.perm_insertionSort sizeGE _).mem_iff] at hf
  obtain ⟨e, he, hfe⟩ := List.mem_map.mp hf
  exact ⟨e, List.of_mem_filter he, hfe.symm⟩

/-- Helper: every directory reported by the build-artifacts scanner
survives its filter. -/
lemma mem_build_artifacts_scan {cfg : Config}
    {aentries : List ArtifactEntry} {f : CleanableFile}
    (hf : f ∈ build_artifacts_scan cfg aentries) :
    ∃ e, artifactSurvives cfg e = true ∧ f = mkArtifactFile e := by
  unfold build_artifacts_scan at hf
  rw [(List.perm_insertionSort sizeGE _).mem_iff] at hf
  obtain ⟨e, he, hfe⟩ := List.mem_map.mp hf
  exact ⟨e, List.of_mem_filter he, hfe.symm⟩

/-- Helper: every cache reported by the known-cache scanner survives
its filter. -/
lemma mem_known_cache_scan {cfg : Config}
    {kentries : List FixedPathEntry} {f : CleanableFile}
    (hf : f ∈ known_cache_scan cfg kentries) :
    ∃ e, knownCacheSurvives cfg e = true ∧ f = mkKnownCacheFile e := by
  unfold known_cache_scan at hf
  rw [(List.perm_insertionSort sizeGE _).mem_iff] at hf
  obtain ⟨e, he, hfe⟩ := List.mem_map.mp hf
  exact ⟨e, List.of_mem_filter he, hfe.symm⟩

/-- Helper: every cache reported by the global-cache scanner survives
its filter. -/
lemma mem_global_cache_scan {cfg : Config}
    {gentries : List FixedPathEntry} {f : CleanableFile}
    (hf : f ∈ global_cache_scan cfg gentries) :
    ∃ e, globalCacheSurvives cfg e = true ∧ f = mkGlobalCacheFile e := by
  unfold global_cache_scan at hf
  rw [(List.perm_insertionSort sizeGE _).mem_iff] at hf
  obtain ⟨e, he, hfe⟩ := List.mem_map.mp hf
  exact ⟨e, List.of_mem_filter he, hfe.symm⟩

/-! ## Size thresholds (C8) -/

/-- C8: no scanner with a minimum-size threshold reports a file below
that threshold — 1 MiB for the duplicates scanner, the configured byte
threshold for the large-files scanner, 10 KiB for the old-files
scanner, 1 MiB for the generic cache scanner, 1 KiB for the
temp-files scanner (its threshold applies only to non-directories),
1 MiB for the build-artifacts scanner, and 10 MiB for the known-cache
and global-cache scanners — and each boundary is inclusive: at exactly
the threshold the size check passes (the filter reduces to its
remaining conditions) while one byte below the filter rejects
unconditionally. -/
theorem claim_C8_size_thresholds_inclusive (cfg : Config) (now : Nat)
    (entries : List Entry) (centries : List CacheEntry) (root : FsPath)
    (tentries : List TempEntry) (aentries : List ArtifactEntry)
    (kentries gentries : List FixedPathEntry) :
    (∀ f ∈ duplicates_scan cfg entries, dupMinSize ≤ f.size) ∧
    (∀ f ∈ large_files_scan cfg entries,
      cfg.min_large_size_bytes ≤ f.size) ∧
    (∀ f ∈ old_files_scan cfg now entries, 10 * 1024 ≤ f.size) ∧
    (∀ f ∈ cache_scan cfg centries, 1024 * 1024 ≤ f.size) ∧
    (∀ f ∈ temp_scan cfg now root tentries,
      f.is_directory = false → 1024 ≤ f.size) ∧
    (∀ f ∈ build_artifacts_scan cfg aentries, 1024 * 1024 ≤ f.size) ∧
    (∀ f ∈ known_cache_scan cfg kentries, 10 * 1024 * 1024 ≤ f.size) ∧
    (∀ f ∈ global_cache_scan cfg gentries, 10 * 1024 * 1024 ≤ f.size) ∧
    (∀ e : Entry,
      dupSurvives cfg { e with size := dupMinSize } =
        (e.isFile && !cfg.is_excluded e.path && !isHiddenName e.path &&
          e.metaOk) ∧
      dupSurvives cfg { e with size := dupMinSize - 1 } = false) ∧
    (∀ e : Entry,
      largeSurvives cfg { e with size := cfg.min_large_size_bytes } =
        (e.isFile && !cfg.is_excluded e.path && !isHiddenName e.path &&
          e.metaOk && !is_common_needed_large_file e) ∧
      (1 ≤ cfg.min_large_size_mb →
        largeSurvives cfg { e with size := cfg.min_large_size_bytes - 1 } =
          false)) ∧
    (∀ e : Entry,
      oldSurvives cfg now { e with size := 10 * 1024 } =
        (e.isFile && !cfg.is_excluded e.path && !isHiddenName e.path &&
          !is_system_file e.path &&
          !accessedWithinDays now cfg.min_age_days e && e.metaOk) ∧
      oldSurvives cfg now { e with size := 10 * 1024 - 1 } = false) ∧
    (∀ e : CacheEntry,
      cacheSurvives cfg { e with size := 1024 * 1024 } =
        (!cfg.is_excluded e.path) ∧
      cacheSurvives cfg { e with size := 1024 * 1024 - 1 } = false) ∧
    (∀ e : TempEntry, e.isDir = false →
      tempSurvives cfg now root { e with size := 1024 } =
        (decide (e.path ≠ root) && !cfg.is_excluded e.path &&
          !wasModifiedWithinDays now 1 e && e.metaOk && !e.readonly) ∧
      tempSurvives cfg now root { e with size := 1024 - 1 } = false) ∧
    (∀ e : ArtifactEntry,
      artifactSurvives cfg { e with size := 1024 * 1024 } =
        (!cfg.is_excluded e.path &&
          (!e.projectFileRequired || e.projectFileExists) &&
          !e.recentlyUsed) ∧
      artifactSurvives cfg { e with size := 1024 * 1024 - 1 } = false) ∧
    (∀ e : FixedPathEntry,
      knownCacheSurvives cfg { e with size := 10 * 1024 * 1024 } =
        (e.present && !cfg.is_excluded e.path) ∧
      knownCacheSurvives cfg { e with size := 10 * 1024 * 1024 - 1 } =
        false) ∧
    (∀ e : FixedPathEntry,
      globalCacheSurvives cfg { e with size := 10 * 1024 * 1024 } =
        (e.present && !cfg.is_excluded e.path) ∧
      globalCacheSurvives cfg { e with size := 10 * 1024 * 1024 - 1 } =
        false) := by
  refine ⟨?_, ?_, ?_, ?_, ?_, ?_, ?_, ?_, ?_, ?_, ?_, ?_, ?_, ?_, ?_, ?_⟩
  · intro f hf
    obtain ⟨e, he, _, hsize⟩ := mem_duplicates_scan hf
    have hs := List.of_mem_filter he
    simp only [dupSurvives, Bool.and_eq_true, decide_eq_true_eq] at hs
    rw [hsize]
    exact hs.2
  · intro f hf
    obtain ⟨e, hs, hfe⟩ := mem_large_files_scan hf
    simp only [largeSurvives, Bool.and_eq_true, decide_eq_true_eq] at hs
    rw [hfe]
    exact hs.1.2
  · intro f hf
    obtain ⟨e, hs, hfe⟩ := mem_old_files_scan hf
    simp only [oldSurvives, Bool.and_eq_true, decide_eq_true_eq] at hs
    rw [hfe]
    exact hs.2
  · intro f hf
    obtain ⟨e, hs, hfe⟩ := mem_cache_scan hf
    simp only [cacheSurvives, Bool.and_eq_true, decide_eq_true_eq] at hs
    rw [hfe]
    exact hs.2
  · intro f hf hdir
    obtain ⟨e, hs, hfe⟩ := mem_temp_scan hf
    have hed : e.isDir = false := by
      rw [hfe] at hdir
      exact hdir
    simp only [tempSurvives, Bool.and_eq_true] at hs
    have h6 := hs.1.2
    rw [hed] at h6
    simp at h6
    rw [hfe]
    exact h6
  · intro f hf
    obtain ⟨e, hs, hfe⟩ := mem_build_artifacts_scan hf
    simp only [artifactSurvives, Bool.and_eq_true, decide_eq_true_eq] at hs
    rw [hfe]
    exact hs.2
  · intro f hf
    obtain ⟨e, hs, hfe⟩ := mem_known_cache_scan hf
    simp only [knownCacheSurvives, Bool.and_eq_true, decide_eq_true_eq] at hs
    rw [hfe]
    exact hs.2
  · intro f hf
    obtain ⟨e, hs, hfe⟩ := mem_global_cache_scan hf
    simp only [globalCacheSurvives, Bool.and_eq_true, decide_eq_true_eq] at hs
    rw [hfe]
    exact hs.2
  · intro e
    constructor
    · simp [dupSurvives]
    · simp [dupSurvives, dupMinSize]
  · intro e
    constructor
    · have hneed : is_common_needed_large_file
          { e with size := cfg.min_large_size_bytes } =
          is_common_needed_large_file e := rfl
      simp [largeSurvives, hneed]
    · intro hmb
      have hpos : 0 < cfg.min_large_size_bytes := by
        have h0 : 0 < cfg.min_large_size_mb := hmb
        unfold Config.min_large_size_bytes
        positivity
      have hlt : ¬ (cfg.min_large_size_bytes ≤
          cfg.min_large_size_bytes - 1) := by omega
      simp [largeSurvives, hlt]
  · intro e
    constructor
    · have hacc : accessedWithinDays now cfg.min_age_days
          { e with size := 10 * 1024 } =
          accessedWithinDays now cfg.min_age_days e := rfl
      simp [oldSurvives, hacc]
    · simp [oldSurvives]
  · intro e
    constructor
    · simp [cacheSurvives]
    · simp [cacheSurvives]
  · intro e hdir
    constructor
    · simp [tempSurvives, wasModifiedWithinDays, hdir]
    · simp [tempSurvives, wasModifiedWithinDays, hdir]
  · intro e
    constructor
    · simp [artifactSurvives]
    · simp [artifactSurvives]
  · intro e
    constructor
    · simp [knownCacheSurvives]
    · simp [knownCacheSurvives]
  · intro e
    constructor
    · simp [globalCacheSurvives]
    · simp [globalCacheSurvives]

/-! ## Duplicate-choice determinism (C9) -/

/-- C9: the multiset of reported duplicates is invariant under the order
in which the hash groups are processed (the only source of
nondeterminism, the hash map's iteration order): for any permutation of
the hash groups, processing them and sorting yields a permutation of
`duplicates_scan`'s output — the same set of `Duplicate` entries, each
carrying the same original in its reason — so a fixed input always
yields the same reported set. -/
theorem claim_C9_duplicate_choice_deterministic (cfg : Config)
    (entries : List Entry) (gs : List (List Nat × List Entry))
    (hp : gs.Perm (hashGroups cfg entries)) :
    (List.insertionSort sizeGE
        (gs.flatMap (fun g => processHashGroup g.2))).Perm
      (duplicates_scan cfg entries) ∧
    ∀ f, f ∈ List.insertionSort sizeGE
        (gs.flatMap (fun g => processHashGroup g.2)) ↔
      f ∈ duplicates_scan cfg entries := by
  have hflat : (gs.flatMap (fun g => processHashGroup g.2)).Perm
      ((hashGroups cfg entries).flatMap (fun g => processHashGroup g.2)) :=
    List.Perm.flatMap_right _ hp
  have hmain : (List.insertionSort sizeGE
      (gs.flatMap (fun g => processHashGroup g.2))).Perm
      (duplicates_scan cfg entries) := by
    unfold duplicates_scan
    exact ((List.perm_insertionSort sizeGE _).trans hflat).trans
      (List.perm_insertionSort sizeGE _).symm
  exact ⟨hmain, fun f => hmain.mem_iff⟩

/-- A concrete configuration for the scanner witnesses. -/
def sampleConfig : Config :=
  { min_age_days := 30
    min_large_size_mb := 100
    project_recent_days := 14
    download_age_days := 30
    excluded_paths := []
    cache_paths := []
    base_path := none }

/-- Sample walk entry: a 1 MiB file, earliest access time. -/
def entryA : Entry :=
  { path := ["home", "u", "Documents", "a.bin"]
    isFile := true
    size := 1048576
    content := [1, 2]
    atime := 5
    metaOk := true
    hashOk := true
    projectMarkerSibling := false }

/-- Sample walk entry: a byte-identical copy of `entryA`, accessed
later. -/
def entryB : Entry :=
  { path := ["home", "u", "Movies", "b.bin"]
    isFile := true
    size := 1048576
    content := [1, 2]
    atime := 9
    metaOk := true
    hashOk := true
    projectMarkerSibling := false }

/-- Sample walk entry: same size as the others, different content. -/
def entryC : Entry :=
  { path := ["home", "u", "Music", "c.bin"]
    isFile := true
    size := 1048576
    content := [3, 4]
    atime := 1
    metaOk := true
    hashOk := true
    projectMarkerSibling := false }

/-- Two byte-identical 1 MiB files and one same-size distinct file, as a
walk would collect them. -/
def sampleEntries : List Entry := [entryA, entryB, entryC]

/-- Sample walk entry for the large-files scanner: a 200 MB image. -/
def largeEntry : Entry :=
  { path := ["home", "u", "big.iso"]
    isFile := true
    size := 209715200
    content := []
    atime := 0
    metaOk := true
    hashOk := true
    projectMarkerSibling := false }

/-- Sample top-level cache directory entry. -/
def cacheEntry : CacheEntry :=
  { path := ["home", "u", ".cache", "pkg"]
    size := 1048576
    isDir := true
    atime := 0 }

/-- Sample temp walk entry: a 2 KiB stale file at depth 1 under
`/tmp`. -/
def tempEntry : TempEntry :=
  { path := ["tmp", "build.log"]
    depth := 1
    metaOk := true
    readonly := false
    size := 2048
    isDir := false
    mtimeOk := true
    mtime := 0
    atime := 0 }

/-- Sample matched artifact candidate: a 2 MiB `node_modules` with its
`package.json` present and the project not recently used. -/
def artifactEntry : ArtifactEntry :=
  { path := ["home", "u", "proj", "node_modules"]
    description := "Node.js dependencies"
    projectFileRequired := true
    projectFileExists := true
    recentlyUsed := false
    size := 2097152
    mtime := 0 }

/-- Sample known-cache path: a 20 MiB npm cache. -/
def knownEntry : FixedPathEntry :=
  { path := ["home", "u", ".npm", "_cacache"]
    description := "npm cache"
    present := true
    size := 20971520
    time := 0 }

/-- Sample global-cache path: a 20 MiB Cargo registry cache. -/
def globalEntry : FixedPathEntry :=
  { path := ["home", "u", ".cargo", "registry", "cache"]
    description := "Cargo registry cache"
    present := true
    size := 20971520
    time := 0 }

/-- Witness for C8: reported entries of all eight concrete scans respect
their thresholds, and each one-byte-below boundary rejects at a
concrete entry. -/
theorem claim_C8_size_thresholds_inclusive_witness :
    dupMinSize ≤ (mkDupFile entryA entryB).size ∧
    sampleConfig.min_large_size_bytes ≤ (mkLargeFile largeEntry).size ∧
    10 * 1024 ≤ (mkOldFile entryC).size ∧
    1024 * 1024 ≤ (mkCacheFile cacheEntry).size ∧
    1024 ≤ (mkTempFile tempEntry).size ∧
    1024 * 1024 ≤ (mkArtifactFile artifactEntry).size ∧
    10 * 1024 * 1024 ≤ (mkKnownCacheFile knownEntry).size ∧
    10 * 1024 * 1024 ≤ (mkGlobalCacheFile globalEntry).size ∧
    dupSurvives sampleConfig { entryA with size := dupMinSize - 1 } =
      false ∧
    largeSurvives sampleConfig
      { largeEntry with size := sampleConfig.min_large_size_bytes - 1 } =
      false ∧
    oldSurvives sampleConfig 100000000
      { entryC with size := 10 * 1024 - 1 } = false ∧
    cacheSurvives sampleConfig { cacheEntry with size := 1024 * 1024 - 1 } =
      false ∧
    tempSurvives sampleConfig 100000000 ["tmp"]
      { tempEntry with size := 1024 - 1 } = false ∧
    artifactSurvives sampleConfig
      { artifactEntry with size := 1024 * 1024 - 1 } = false ∧
    knownCacheSurvives sampleConfig
      { knownEntry with size := 10 * 1024 * 1024 - 1 } = false ∧
    globalCacheSurvives sampleConfig
      { globalEntry with size := 10 * 1024 * 1024 - 1 } = false := by
  obtain ⟨hd, _, ho, hc, ht, hba, hkc, hgc, hdb, _, hob, hcb, htb, hab,
      hkb, hgb⟩ :=
    claim_C8_size_thresholds_inclusive sampleConfig 100000000
      sampleEntries [cacheEntry] ["tmp"] [tempEntry] [artifactEntry]
      [knownEntry] [globalEntry]
  obtain ⟨_, hl, _, _, _, _, _, _, _, hlb, _, _, _, _, _, _⟩ :=
    claim_C8_size_thresholds_inclusive sampleConfig 100000000
      [largeEntry] [cacheEntry] ["tmp"] [tempEntry] [artifactEntry]
      [knownEntry] [globalEntry]
  refine ⟨hd (mkDupFile entryA entryB) (by decide),
    hl (mkLargeFile largeEntry) (by decide),
    ho (mkOldFile entryC) (by decide),
    hc (mkCacheFile cacheEntry) (by decide),
    ht (mkTempFile tempEntry) (by decide) (by decide),
    hba (mkArtifactFile artifactEntry) (by decide),
    hkc (mkKnownCacheFile knownEntry) (by decide),
    hgc (mkGlobalCacheFile globalEntry) (by decide),
    (hdb entryA).2, (hlb largeEntry).2 (by decide),
    (hob entryC).2, (hcb cacheEntry).2,
    (htb tempEntry (by decide)).2, (hab artifactEntry).2,
    (hkb knownEntry).2, (hgb globalEntry).2⟩

/-- Witness for C9: processing the hash groups of `sampleEntries` in
reverse order reports the same duplicates. -/
theorem claim_C9_duplicate_choice_deterministic_witness :
    (List.insertionSort sizeGE
        (((hashGroups sampleConfig sampleEntries).reverse).flatMap
          (fun g => processHashGroup g.2))).Perm
      (duplicates_scan sampleConfig sampleEntries) ∧
    ∀ f, f ∈ List.insertionSort sizeGE
        (((hashGroups sampleConfig sampleEntries).reverse).flatMap
          (fun g => processHashGroup g.2)) ↔
      f ∈ duplicates_scan sampleConfig sampleEntries :=
  claim_C9_duplicate_choice_deterministic sampleConfig sampleEntries
    (hashGroups sampleConfig sampleEntries).reverse
    (List.reverse_perm _)

/-! ## Duplicate detection (C4) -/

/-- The collected walk files whose byte content is exactly `c` (the
"N byte-identical files" of the duplicate-detection claim). -/
def contentGroup (cfg : Config) (entries : List Entry) (c : List Nat) :
    List Entry :=
  (dupCollected cfg entries).filter (fun e => decide (e.content = c))

/-- Helper: the size buckets that reach the hash phase have
pairwise-distinct keys. -/
lemma potential_keys_nodup (cfg : Config) (entries : List Entry) :
    ((potentialDuplicates cfg entries).map Prod.fst).Nodup := by
  have hsub : ((potentialDuplicates cfg entries).map Prod.fst).Sublist
      ((sizeGroups cfg entries).map Prod.fst) :=
    List.Sublist.map _ (List.filter_sublist _)
  refine hsub.nodup ?_
  rw [show sizeGroups cfg entries =
    groupByKey (fun e => e.size) (dupCollected cfg entries) from rfl]
  rw [groupByKey_keys]
  exact List.nodup_dedup _

/-- Helper: the hash groups have pairwise-distinct keys. -/
lemma hashGroups_keys_nodup (cfg : Config) (entries : List Entry) :
    ((hashGroups cfg entries).map Prod.fst).Nodup := by
  rw [show hashGroups cfg entries =
    groupByKey (fun e => e.content) (hashedEntries cfg entries) from rfl]
  rw [groupByKey_keys]
  exact List.nodup_dedup _

/-- Helper: the hash-success filter is the `hashOk` flag. -/
lemma hashedEntries_filter_hashOk (cfg : Config) (entries : List Entry) :
    hashedEntries cfg entries =
      ((potentialDuplicates cfg entries).flatMap (fun g => g.2)).filter
        (fun e => e.hashOk) := by
  unfold hashedEntries
  apply List.filter_congr
  intro e _
  cases h : e.hashOk <;> simp [hash_file, h]

/-- Helper (central): under the claim's hypotheses — at least two
collected files with content `c`, all of them hashable, and content
determining size among the collected files — the hash group of `c`
consists of exactly the collected files with content `c`. -/
lemma contentGroup_hashed (cfg : Config) (entries : List Entry)
    (c : List Nat) (s₀ : Nat)
    (hN : 2 ≤ (contentGroup cfg entries c).length)
    (hhash : ∀ e ∈ contentGroup cfg entries c, e.hashOk = true)
    (hsz : ∀ e ∈ dupCollected cfg entries, e.content = c → e.size = s₀) :
    (hashedEntries cfg entries).filter (fun e => decide (e.content = c)) =
      contentGroup cfg entries c := by
  have hS_sub : ∀ e ∈ contentGroup cfg entries c,
      e ∈ dupCollected cfg entries :=
    fun e he => List.mem_of_mem_filter he
  have hS_content : ∀ e ∈ contentGroup cfg entries c, e.content = c := by
    intro e he
    have := List.of_mem_filter he
    exact of_decide_eq_true this
  obtain ⟨e₀, he₀⟩ := List.exists_mem_of_length_pos
    (show 0 < (contentGroup cfg entries c).length by omega)
  have hkey : s₀ ∈ ((dupCollected cfg entries).map (fun e => e.size)).dedup :=
    List.mem_dedup.mpr (List.mem_map.mpr
      ⟨e₀, hS_sub e₀ he₀, hsz e₀ (hS_sub e₀ he₀) (hS_content e₀ he₀)⟩)
  have hlenB : (contentGroup cfg entries c).length ≤
      ((dupCollected cfg entries).filter
        (fun e => decide (e.size = s₀))).length := by
    rw [show contentGroup cfg entries c = (dupCollected cfg entries).filter
      (fun e => decide (e.content = c)) from rfl]
    rw [← List.countP_eq_length_filter, ← List.countP_eq_length_filter]
    refine List.countP_mono_left ?_
    intro a ha h
    exact decide_eq_true (hsz a ha (of_decide_eq_true h))
  have hBpot : (s₀, (dupCollected cfg entries).filter
      (fun e => decide (e.size = s₀))) ∈ potentialDuplicates cfg entries := by
    unfold potentialDuplicates
    rw [List.mem_filter]
    refine ⟨mem_groupByKey.mpr ⟨hkey, rfl⟩, decide_eq_true ?_⟩
    show 1 < ((dupCollected cfg entries).filter
      (fun e => decide (e.size = s₀))).length
    omega
  -- rewrite the left side down to the single surviving bucket
  rw [hashedEntries_filter_hashOk, List.filter_filter, List.filter_flatMap]
  rw [flatMap_single (potentialDuplicates cfg entries) _ s₀
    ((dupCollected cfg entries).filter (fun e => decide (e.size = s₀)))
    (potential_keys_nodup cfg entries) hBpot ?vanish]
  case vanish =>
    intro g hg hne
    rw [List.filter_eq_nil_iff]
    intro x hx
    obtain ⟨hxc, hxs⟩ := mem_of_mem_potential hg hx
    intro hq
    rw [Bool.and_eq_true, decide_eq_true_eq] at hq
    exact hne (by rw [← hxs, hsz x hxc hq.1])
  -- the surviving bucket filtered down is exactly the content group
  rw [List.filter_filter]
  rw [show contentGroup cfg entries c = (dupCollected cfg entries).filter
    (fun e => decide (e.content = c)) from rfl]
  apply List.filter_congr
  intro a ha
  cases hac : (decide (a.content = c) : Bool) with
  | false => simp [hac]
  | true =>
    have haC : a ∈ contentGroup cfg entries c :=
      List.mem_filter.mpr ⟨ha, hac⟩
    have hh : a.hashOk = true := hhash a haC
    have hs : a.size = s₀ := hsz a ha (of_decide_eq_true hac)
    simp [hac, hh, hs]

/-- Helper: under the same hypotheses, `(c, contentGroup …)` is one of
the hash groups. -/
lemma contentGroup_mem_hashGroups (cfg : Config) (entries : List Entry)
    (c : List Nat) (s₀ : Nat)
    (hN : 2 ≤ (contentGroup cfg entries c).length)
    (hhash : ∀ e ∈ contentGroup cfg entries c, e.hashOk = true)
    (hsz : ∀ e ∈ dupCollected cfg entries, e.content = c → e.size = s₀) :
    (c, contentGroup cfg entries c) ∈ hashGroups cfg entries := by
  have hSeq := contentGroup_hashed cfg entries c s₀ hN hhash hsz
  apply mem_groupByKey.mpr
  refine ⟨?_, hSeq.symm⟩
  obtain ⟨e₀, he₀⟩ := List.exists_mem_of_length_pos
    (show 0 < (contentGroup cfg entries c).length by omega)
  have he₀h : e₀ ∈ hashedEntries cfg entries := by
    rw [← hSeq] at he₀
    exact List.mem_of_mem_filter he₀
  have he₀c : e₀.content = c := by
    rw [← hSeq] at he₀
    have hp := List.of_mem_filter he₀
    exact of_decide_eq_true hp
  exact List.mem_dedup.mpr (List.mem_map.mpr ⟨e₀, he₀h, he₀c⟩)

/-- Helper: with pairwise-distinct collected paths, the hashed-file list
has no duplicates. -/
lemma hashedEntries_nodup (cfg : Config) (entries : List Entry)
    (hnd : ((dupCollected cfg entries).map (fun e => e.path)).Nodup) :
    (hashedEntries cfg entries).Nodup := by
  have hcol : (dupCollected cfg entries).Nodup := hnd.of_map
  rw [hashedEntries_filter_hashOk]
  apply List.Nodup.filter
  rw [show (potentialDuplicates cfg entries).flatMap (fun g => g.2) =
    ((potentialDuplicates cfg entries).map (fun g => g.2)).flatten from rfl]
  rw [List.nodup_flatten]
  constructor
  · intro b hb
    obtain ⟨g, hg, hgb⟩ := List.mem_map.mp hb
    have hg' : g ∈ sizeGroups cfg entries := List.mem_of_mem_filter hg
    have hgv := (mem_groupByKey.mp hg').2
    rw [← hgb, hgv]
    exact hcol.filter _
  · have hsub : ((potentialDuplicates cfg entries).map (fun g => g.2)).Sublist
        ((sizeGroups cfg entries).map (fun g => g.2)) :=
      List.Sublist.map _ (List.filter_sublist _)
    refine List.Pairwise.sublist hsub ?_
    have hmm : (sizeGroups cfg entries).map (fun g => g.2) =
        (((dupCollected cfg entries).map (fun e => e.size)).dedup).map
          (fun k => (dupCollected cfg entries).filter
            (fun e => decide (e.size = k))) := by
      rw [show sizeGroups cfg entries =
        groupByKey (fun e => e.size) (dupCollected cfg entries) from rfl]
      unfold groupByKey
      rw [List.map_map]
      rfl
    rw [hmm]
    have hdd : List.Pairwise (fun a b => a ≠ b)
        (((dupCollected cfg entries).map (fun e => e.size)).dedup) :=
      List.nodup_dedup _
    refine List.Pairwise.map _ ?_ hdd
    intro k₁ k₂ hk
    intro x hx₁ hx₂
    have hp₁ := List.of_mem_filter hx₁
    have hp₂ := List.of_mem_filter hx₂
    have h₁ : x.size = k₁ := of_decide_eq_true hp₁
    have h₂ : x.size = k₂ := of_decide_eq_true hp₂
    exact hk (by rw [← h₁, ← h₂])

/-- Helper: a duplicate-free list whose members are all one value has at
most one member. -/
lemma length_le_one_of_nodup_of_all_eq {α : Type} {l : List α} {a : α}
    (hnd : l.Nodup) (h : ∀ x ∈ l, x = a) : l.length ≤ 1 := by
  cases l with
  | nil => simp
  | cons x t =>
    cases t with
    | nil => simp
    | cons y u =>
      exfalso
      rw [List.nodup_cons] at hnd
      apply hnd.1
      have hx := h x (List.mem_cons_self _ _)
      have hy := h y (List.mem_cons_of_mem _ (List.mem_cons_self _ _))
      rw [hx, ← hy]
      exact List.mem_cons_self _ _

/-- Helper: every reported duplicate comes from some hash group. -/
lemma duplicates_scan_decomp {cfg : Config} {entries : List Entry}
    {f : CleanableFile} (hf : f ∈ duplicates_scan cfg entries) :
    ∃ g ∈ hashGroups cfg entries, f ∈ processHashGroup g.2 := by
  unfold duplicates_scan at hf
  rw [(List.perm_insertionSort sizeGE _).mem_iff] at hf
  exact List.mem_flatMap.mp hf

/-- Helper: a file emitted for a hash group carries the path of one of
the group's members. -/
lemma processHashGroup_path_source {g : List Entry} {f : CleanableFile}
    (hf : f ∈ processHashGroup g) : ∃ y ∈ g, f.path = y.path := by
  obtain ⟨_, orig, rest, hsort, hmap⟩ := processHashGroup_mem hf
  obtain ⟨y, hy, hfy⟩ := List.mem_map.mp hmap
  exact ⟨y, (insertionSort_head_min hsort).2.1 y hy, by rw [← hfy]; rfl⟩

/-- Helper: with pairwise-distinct collected paths, files emitted for a
hash group of a different content never carry a path of the content-`c`
group. -/
lemma group_ne_content_path_disjoint (cfg : Config) (entries : List Entry)
    (c : List Nat)
    (hnd : ((dupCollected cfg entries).map (fun e => e.path)).Nodup) :
    ∀ g ∈ hashGroups cfg entries, g.1 ≠ c →
      ∀ f ∈ processHashGroup g.2,
        f.path ∉ (contentGroup cfg entries c).map (fun e => e.path) := by
  intro g hg hne f hf hin
  obtain ⟨y, hy, hfy⟩ := processHashGroup_path_source hf
  obtain ⟨hyh, hyc⟩ := mem_of_mem_hashGroup hg hy
  have hycol := (mem_hashedEntries hyh).1
  obtain ⟨e, he, hep⟩ := List.mem_map.mp hin
  have heco : e ∈ dupCollected cfg entries := List.mem_of_mem_filter he
  have hec : e.content = c := by
    have hp := List.of_mem_filter he
    exact of_decide_eq_true hp
  have hey : e = y :=
    (List.inj_on_of_nodup_map hnd) heco hycol (by rw [hep, hfy])
  apply hne
  rw [← hyc, ← hey, hec]

/-- C4: for N ≥ 2 collected files of identical byte content (each of
them hashable, content determining size, walk paths pairwise distinct),
the duplicates scanner reports exactly N − 1 entries carrying those
files' paths; the one unreported member is an earliest-accessed one,
every reported member is a `Duplicate` whose reason references that
original; and a collected file whose content matches no other collected
file is never reported as a duplicate. -/
theorem claim_C4_duplicate_detection (cfg : Config) (entries : List Entry)
    (c : List Nat) (s₀ : Nat) :
    (((dupCollected cfg entries).map (fun e => e.path)).Nodup →
      2 ≤ (contentGroup cfg entries c).length →
      (∀ e ∈ contentGroup cfg entries c, e.hashOk = true) →
      (∀ e ∈ dupCollected cfg entries, e.content = c → e.size = s₀) →
      ((duplicates_scan cfg entries).filter (fun f =>
          decide (f.path ∈ (contentGroup cfg entries c).map
            (fun e => e.path)))).length =
        (contentGroup cfg entries c).length - 1 ∧
      ∃ orig ∈ contentGroup cfg entries c,
        (∀ e ∈ contentGroup cfg entries c, orig.atime ≤ e.atime) ∧
        orig.path ∉ (duplicates_scan cfg entries).map (fun f => f.path) ∧
        ∀ f ∈ duplicates_scan cfg entries,
          f.path ∈ (contentGroup cfg entries c).map (fun e => e.path) →
          f.category = Category.Duplicate ∧
          f.reason = "Duplicate of: " ++ originalName orig.path) ∧
    (((dupCollected cfg entries).map (fun e => e.path)).Nodup →
      ∀ e ∈ dupCollected cfg entries,
        (dupCollected cfg entries).filter
          (fun x => decide (x.content = e.content)) = [e] →
        e.path ∉ (duplicates_scan cfg entries).map (fun f => f.path)) := by
  constructor
  · intro hnd hN hhash hsz
    cases hs : List.insertionSort atimeLE (contentGroup cfg entries c) with
    | nil =>
      exfalso
      have hle := List.length_insertionSort atimeLE (contentGroup cfg entries c)
      rw [hs] at hle
      simp at hle
      omega
    | cons orig rest =>
      have hlen2 : ¬ ((contentGroup cfg entries c).length < 2) := by omega
      have hproc : processHashGroup (contentGroup cfg entries c) =
          rest.map (mkDupFile orig) := by
        unfold processHashGroup
        rw [if_neg hlen2, hs]
      have hlensort := List.length_insertionSort atimeLE
        (contentGroup cfg entries c)
      rw [hs] at hlensort
      have hrest_len : rest.length =
          (contentGroup cfg entries c).length - 1 := by
        simp at hlensort
        omega
      obtain ⟨horig_mem, hrest_sub, horig_min⟩ := insertionSort_head_min hs
      have hSpaths : ((contentGroup cfg entries c).map
          (fun e => e.path)).Nodup :=
        (List.Sublist.map _ (List.filter_sublist _)).nodup hnd
      have hsort_perm : (orig :: rest).Perm (contentGroup cfg entries c) := by
        rw [← hs]
        exact List.perm_insertionSort atimeLE _
      have hsorted_paths : ((orig :: rest).map (fun e => e.path)).Nodup :=
        ((hsort_perm.map _).nodup_iff).mpr hSpaths
      have hgroupC := contentGroup_mem_hashGroups cfg entries c s₀ hN hhash hsz
      have hgval : ∀ g ∈ hashGroups cfg entries, g.1 = c →
          g.2 = contentGroup cfg entries c := by
        intro g hg hgc
        have hgv := (mem_groupByKey.mp hg).2
        rw [hgc] at hgv
        rw [hgv]
        exact contentGroup_hashed cfg entries c s₀ hN hhash hsz
      have hfilter_rest :
          (processHashGroup (contentGroup cfg entries c)).filter
            (fun f => decide (f.path ∈ (contentGroup cfg entries c).map
              (fun e => e.path))) =
          processHashGroup (contentGroup cfg entries c) := by
        rw [List.filter_eq_self]
        intro f hf
        obtain ⟨y, hy, hfy⟩ := processHashGroup_path_source hf
        exact decide_eq_true
          (by rw [hfy]; exact List.mem_map.mpr ⟨y, hy, rfl⟩)
      have hcount : ((duplicates_scan cfg entries).filter (fun f =>
          decide (f.path ∈ (contentGroup cfg entries c).map
            (fun e => e.path)))).length =
          (contentGroup cfg entries c).length - 1 := by
        have hlen_eq := ((List.perm_insertionSort sizeGE
          ((hashGroups cfg entries).flatMap
            (fun g => processHashGroup g.2))).filter
          (fun f => decide (f.path ∈ (contentGroup cfg entries c).map
            (fun e => e.path)))).length_eq
        rw [show duplicates_scan cfg entries = List.insertionSort sizeGE
          ((hashGroups cfg entries).flatMap
            (fun g => processHashGroup g.2)) from rfl]
        rw [hlen_eq, List.filter_flatMap]
        rw [flatMap_single (hashGroups cfg entries) _ c
          (contentGroup cfg entries c) (hashGroups_keys_nodup cfg entries)
          hgroupC ?nil]
        case nil =>
          intro g hg hgc
          rw [List.filter_eq_nil_iff]
          intro f hf
          have hdis := group_ne_content_path_disjoint cfg entries c hnd
            g hg hgc f hf
          simp only [decide_eq_true_eq]
          exact hdis
        show ((processHashGroup (contentGroup cfg entries c)).filter
          (fun f => decide (f.path ∈ (contentGroup cfg entries c).map
            (fun e => e.path)))).length = _
        rw [hfilter_rest, hproc, List.length_map]
        exact hrest_len
      have horig_not : orig.path ∉ (duplicates_scan cfg entries).map
          (fun f => f.path) := by
        intro hin
        obtain ⟨f, hf, hfp⟩ := List.mem_map.mp hin
        obtain ⟨g, hg, hfg⟩ := duplicates_scan_decomp hf
        by_cases hgc : g.1 = c
        · rw [hgval g hg hgc, hproc] at hfg
          obtain ⟨y, hy, hfy⟩ := List.mem_map.mp hfg
          have hfyp : f.path = y.path := by rw [← hfy]; rfl
          rw [List.map_cons, List.nodup_cons] at hsorted_paths
          apply hsorted_paths.1
          refine List.mem_map.mpr ⟨y, hy, ?_⟩
          rw [← hfp]
          exact hfyp.symm
        · exact group_ne_content_path_disjoint cfg entries c hnd g hg hgc
            f hfg (by rw [hfp]; exact List.mem_map.mpr ⟨orig, horig_mem, rfl⟩)
      have hreason : ∀ f ∈ duplicates_scan cfg entries,
          f.path ∈ (contentGroup cfg entries c).map (fun e => e.path) →
          f.category = Category.Duplicate ∧
          f.reason = "Duplicate of: " ++ originalName orig.path := by
        intro f hf hin
        obtain ⟨g, hg, hfg⟩ := duplicates_scan_decomp hf
        by_cases hgc : g.1 = c
        · rw [hgval g hg hgc, hproc] at hfg
          obtain ⟨y, hy, hfy⟩ := List.mem_map.mp hfg
          rw [← hfy]
          exact ⟨rfl, rfl⟩
        · exact absurd hin
            (group_ne_content_path_disjoint cfg entries c hnd g hg hgc f hfg)
      exact ⟨hcount, orig, horig_mem, horig_min, horig_not, hreason⟩
  · intro hnd e he hsingle hin
    obtain ⟨f, hf, hfp⟩ := List.mem_map.mp hin
    obtain ⟨g, hg, hfg⟩ := duplicates_scan_decomp hf
    obtain ⟨hglen, orig', rest', hsort', hmap'⟩ := processHashGroup_mem hfg
    obtain ⟨y, hy, hfy⟩ := List.mem_map.mp hmap'
    have hyg : y ∈ g.2 := (insertionSort_head_min hsort').2.1 y hy
    obtain ⟨hyh, hyc⟩ := mem_of_mem_hashGroup hg hyg
    have hycol := (mem_hashedEntries hyh).1
    have hfyp : f.path = y.path := by rw [← hfy]; rfl
    have hye : y = e :=
      (List.inj_on_of_nodup_map hnd) hycol he (by rw [← hfyp, hfp])
    have hkey : g.1 = e.content := by rw [← hyc, hye]
    have hallg : ∀ x ∈ g.2, x = e := by
      intro x hx
      obtain ⟨hxh, hxc⟩ := mem_of_mem_hashGroup hg hx
      have hxcol := (mem_hashedEntries hxh).1
      have hxin : x ∈ (dupCollected cfg entries).filter
          (fun x => decide (x.content = e.content)) :=
        List.mem_filter.mpr ⟨hxcol, decide_eq_true (by rw [hxc, hkey])⟩
      rw [hsingle] at hxin
      exact List.mem_singleton.mp hxin
    have hgnodup : g.2.Nodup := by
      rw [(mem_groupByKey.mp hg).2]
      exact (hashedEntries_nodup cfg entries hnd).filter _
    have hle := length_le_one_of_nodup_of_all_eq hgnodup hallg
    omega

/-- Witness for C4: on `sampleEntries` (two identical files, one
distinct same-size file) exactly one duplicate is reported, the
earliest-accessed copy is retained and referenced, and the
unique-content file is never reported. -/
theorem claim_C4_duplicate_detection_witness :
    (((duplicates_scan sampleConfig sampleEntries).filter (fun f =>
        decide (f.path ∈ (contentGroup sampleConfig sampleEntries
          [1, 2]).map (fun e => e.path)))).length =
      (contentGroup sampleConfig sampleEntries [1, 2]).length - 1 ∧
    ∃ orig ∈ contentGroup sampleConfig sampleEntries [1, 2],
      (∀ e ∈ contentGroup sampleConfig sampleEntries [1, 2],
        orig.atime ≤ e.atime) ∧
      orig.path ∉ (duplicates_scan sampleConfig sampleEntries).map
        (fun f => f.path) ∧
      ∀ f ∈ duplicates_scan sampleConfig sampleEntries,
        f.path ∈ (contentGroup sampleConfig sampleEntries [1, 2]).map
          (fun e => e.path) →
        f.category = Category.Duplicate ∧
        f.reason = "Duplicate of: " ++ originalName orig.path) ∧
    entryC.path ∉ (duplicates_scan sampleConfig sampleEntries).map
      (fun f => f.path) := by
  obtain ⟨h1, h2⟩ :=
    claim_C4_duplicate_detection sampleConfig sampleEntries [1, 2] 1048576
  refine ⟨h1 (by decide) (by decide) (by decide) (by decide), ?_⟩
  exact h2 (by decide) entryC (by decide) (by decide)

/-! ## Scan-result cache (C6, C10) -/

/-- C6: saving a scan result and loading it back under the identical
option set within the freshness window returns that same result; and
`load_if_recent` misses (returns `none`) whenever the cache file is
absent, present but unparsable, older than the caller's threshold, or
stored under a different options fingerprint. -/
theorem claim_C6_cache_round_trip (res : ScanResult) (o : ScanOptions)
    (store : CacheStore) (now now' maxAge : Nat) :
    (now ≤ now' → now' - now ≤ maxAge →
      load_if_recent o maxAge now' true (cacheSave res o now true store) =
        some res) ∧
    (∀ avail : Bool, load_if_recent o maxAge now' avail none = none) ∧
    (∀ avail : Bool,
      load_if_recent o maxAge now' avail (some none) = none) ∧
    (∀ env : CacheEnvelope, maxAge < now' - env.timestamp_secs →
      load_if_recent o maxAge now' true (some (some env)) = none) ∧
    (∀ env : CacheEnvelope, env.options_key ≠ options_fingerprint o →
      load_if_recent o maxAge now' true (some (some env)) = none) := by
  refine ⟨?_, ?_, ?_, ?_, ?_⟩
  · intro _ h2
    simp [cacheSave, load_if_recent, Nat.not_lt.mpr h2]
  · intro avail; cases avail <;> simp [load_if_recent]
  · intro avail; cases avail <;> simp [load_if_recent]
  · intro env hage
    simp [load_if_recent, hage]
  · intro env hkey
    by_cases hage : maxAge < now' - env.timestamp_secs
    · simp [load_if_recent, hage]
    · have hbne : (env.options_key != options_fingerprint o) = true :=
        bne_iff_ne.mpr hkey
      simp [load_if_recent, hage, hbne]

/-- A concrete option set used by the cache witnesses. -/
def sampleOptions : ScanOptions :=
  { all := true
    cache := false
    trash := false
    temp := false
    downloads := false
    build := false
    large := false
    duplicates := false
    old := false
    min_age := none
    min_size := none
    project_age := some 7
    path := some "/home/user"
    exclude := ["a", "b"]
    json := false }

/-- A concrete scan result used by the cache witnesses. -/
def sampleResult : ScanResult :=
  { files := [{ path := ["home", "user", ".cache", "x"]
                size := 2097152
                category := Category.Cache
                last_accessed := 0
                reason := "Cache directory: x"
                is_directory := true }]
    errors := [] }

/-- Witness for C6: a save at time 10 loaded at time 20 under a
300-second window hits; the four miss conditions fire at concrete
inputs. -/
theorem claim_C6_cache_round_trip_witness :
    load_if_recent sampleOptions 300 20 true
      (cacheSave sampleResult sampleOptions 10 true none) =
        some sampleResult ∧
    load_if_recent sampleOptions 300 20 true none = none ∧
    load_if_recent sampleOptions 300 20 true (some none) = none ∧
    load_if_recent sampleOptions 300 1000 true
      (some (some ⟨0, options_fingerprint sampleOptions, sampleResult⟩)) =
        none ∧
    load_if_recent sampleOptions 300 20 true
      (some (some ⟨10, "", sampleResult⟩)) = none := by
  obtain ⟨h1, h2, h3, h4, h5⟩ :=
    claim_C6_cache_round_trip sampleResult sampleOptions none 10 20 300
  obtain ⟨_, _, _, h4', _⟩ :=
    claim_C6_cache_round_trip sampleResult sampleOptions none 10 1000 300
  refine ⟨h1 (by decide) (by decide), h2 true, h3 true,
    h4' ⟨0, options_fingerprint sampleOptions, sampleResult⟩ (by decide), ?_⟩
  exact h5 ⟨10, "", sampleResult⟩ (by decide)

/-- C10: the cache fingerprint is a deterministic function of the scan
options and is invariant under permutation of the exclusion-pattern
list: any reordering of `exclude` yields the identical cache key. -/
theorem claim_C10_fingerprint_permutation_invariant (o : ScanOptions)
    (l : List String) (hp : l.Perm o.exclude) :
    options_fingerprint { o with exclude := l } = options_fingerprint o := by
  have hperm : (sortStrings l).Perm (sortStrings o.exclude) :=
    ((List.perm_insertionSort _ l).trans hp).trans
      (List.perm_insertionSort _ o.exclude).symm
  have hsort : sortStrings l = sortStrings o.exclude :=
    List.eq_of_perm_of_sorted hperm
      (List.sorted_insertionSort (fun a b : String => a ≤ b) l)
      (List.sorted_insertionSort (fun a b : String => a ≤ b) o.exclude)
  simp [options_fingerprint, hsort]

/-- Witness for C10: swapping the two exclusion patterns of the sample
options leaves the fingerprint unchanged. -/
theorem claim_C10_fingerprint_permutation_invariant_witness :
    options_fingerprint { sampleOptions with exclude := ["b", "a"] } =
      options_fingerprint sampleOptions :=
  claim_C10_fingerprint_permutation_invariant sampleOptions ["b", "a"]
    (by decide)

end Duster
